import Mathlib

/-!
Package `pstmt`: a cache of prepared statements in front of database/sql and sqlx.

A shallow embedding of `pstmt/cache.go` and `pstmt/cachex.go`.

* The backend (`*sql.DB`, `*sqlx.DB` and the statements derived from it) is an external
  collaborator.  It is modelled as a deterministic machine: the handle is identified with
  the history of calls issued to it, and a `Backend` record gives the answer of every call
  as a function of that history.  Claims of the form "compile is (not) invoked" are
  statements about that history.
* A Go map is a possibly-nil association list; assigning into a nil map is a run-time fault
  (`none`), reading from it is not.
* Go's `(value, error)` results are `Except Error value`.
* The sequential definitions run each method body atomically; the lock is modelled in the
  small-step machine of the last section of the definitions.
-/

namespace pstmt

/-! ## Go values -/

/-- Values of `context.Context`: `context.Background()` or some derived context. -/
inductive Context where
  | background
  | derived (id : Nat)
  deriving DecidableEq, Repr

/-- Values passed as `args ...interface{}`. -/
inductive Arg where
  | null
  | int (n : Int)
  | str (s : String)
  | bool (b : Bool)
  deriving DecidableEq, Repr

/-- Values of Go's `error` interface that are not nil. -/
structure Error where
  msg : String
  deriving DecidableEq, Repr

/-! ## Go maps keyed by `string` -/

/-- A value of type `map[string]V`: `none` is the nil map, `some es` a map with entries `es`. -/
abbrev GoMap (V : Type) := Option (List (String × V))

namespace GoMap

/-- Reading the entries of a map for a key. -/
def find {V : Type} : List (String × V) → String → Option V
  | [], _ => none
  | (k, v) :: rest, key => if k = key then some v else find rest key

/-- The entries after `m[key] = v`: the binding of `key` is replaced, or added. -/
def put {V : Type} : List (String × V) → String → V → List (String × V)
  | [], key, v => [(key, v)]
  | (k, w) :: rest, key, v =>
    if k = key then (key, v) :: rest else (k, w) :: put rest key v

/-- The comma-ok read `v, ok := m[key]`; a nil map has no entries, `ok` is `isSome`. -/
def lookup {V : Type} (m : GoMap V) (key : String) : Option V :=
  match m with
  | none => none
  | some es => find es key

/-- The assignment `m[key] = v`; on a nil map it is a run-time fault (`none`). -/
def assign {V : Type} (m : GoMap V) (key : String) (v : V) : Option (GoMap V) :=
  match m with
  | none => none
  | some es => some (some (put es key v))

/-- The number of entries, `len(m)`; zero for the nil map. -/
def len {V : Type} (m : GoMap V) : Nat :=
  match m with
  | none => 0
  | some es => es.length

end GoMap

/-! ## database/sql -/

namespace sql

/-- A prepared statement `*sql.Stmt`, by identity. -/
structure Stmt where
  id : Nat
  deriving DecidableEq, Repr

/-- A rows cursor `*sql.Rows`, by identity. -/
structure Rows where
  id : Nat
  deriving DecidableEq, Repr

/-- A deferred single-row result `*sql.Row`, by identity. -/
structure Row where
  id : Nat
  deriving DecidableEq, Repr

/-- A modification outcome `sql.Result`, by identity. -/
structure Result where
  id : Nat
  deriving DecidableEq, Repr

/-- The calls the cache issues to a `*sql.DB` and to statements prepared on it. -/
inductive Call where
  | PrepareContext (ctx : Context) (query : String)
  | StmtQueryContext (stmt : Stmt) (ctx : Context) (args : List Arg)
  | StmtQueryRowContext (stmt : Stmt) (ctx : Context) (args : List Arg)
  | StmtExecContext (stmt : Stmt) (ctx : Context) (args : List Arg)
  | QueryRowContext (ctx : Context) (query : String) (args : List Arg)
  | Close
  deriving DecidableEq, Repr

/-- A handle `*sql.DB`, identified with the history of calls issued to it. -/
abbrev DB := List Call

/-- The behaviour of the backend: its answer to a call, given the calls issued before. -/
structure Backend where
  PrepareContext : DB → Context → String → Except Error Stmt
  StmtQueryContext : DB → Stmt → Context → List Arg → Except Error Rows
  StmtQueryRowContext : DB → Stmt → Context → List Arg → Row
  StmtExecContext : DB → Stmt → Context → List Arg → Except Error Result
  QueryRowContext : DB → Context → String → List Arg → Row
  Close : DB → Option Error

/-- Whether a call is a compile of `query`. -/
def Call.isPrepare (query : String) : Call → Bool
  | .PrepareContext _ q => q == query
  | _ => false

/-- How many times compile was invoked for `query` in a history. -/
def prepares (db : DB) (query : String) : Nat :=
  db.countP (Call.isPrepare query)

end sql

/-! ## cache.go -/

/-- The struct `Cache`: the embedded `*sql.DB` and the map `stmts`
(`mu` is modelled in the small-step machine only). -/
structure Cache where
  DB : sql.DB
  stmts : GoMap sql.Stmt
  deriving DecidableEq, Repr

/-- Go's `NewCache`. -/
def NewCache (db : sql.DB) (err : Option Error) : Except Error Cache :=
  match err with
  | some e => .error e
  | none => .ok { DB := db, stmts := none }

namespace Cache

/-- Go's `(*Cache).stmt`; the outer `none` is a run-time fault. -/
def stmt (B : sql.Backend) (c : Cache) (ctx : Context) (query : String) :
    Option (Cache × Except Error sql.Stmt) :=
  match GoMap.lookup c.stmts query with
  | some stmt => some (c, .ok stmt)
  | none =>
    match GoMap.lookup c.stmts query with
    | some stmt => some (c, .ok stmt)
    | none =>
      let c1 : Cache := { c with DB := c.DB ++ [sql.Call.PrepareContext ctx query] }
      match B.PrepareContext c.DB ctx query with
      | .error err => some (c1, .error err)
      | .ok stmt =>
        let c2 : Cache := if c1.stmts = none then { c1 with stmts := some [] } else c1
        match GoMap.assign c2.stmts query stmt with
        | none => none
        | some m => some ({ c2 with stmts := m }, .ok stmt)

/-- Go's `(*Cache).QueryContext`. -/
def QueryContext (B : sql.Backend) (c : Cache) (ctx : Context) (query : String)
    (args : List Arg) : Option (Cache × Except Error sql.Rows) :=
  match stmt B c ctx query with
  | none => none
  | some (c, .error err) => some (c, .error err)
  | some (c, .ok stmt) =>
    some ({ c with DB := c.DB ++ [sql.Call.StmtQueryContext stmt ctx args] },
      B.StmtQueryContext c.DB stmt ctx args)

/-- Go's `(*Cache).Query`. -/
def Query (B : sql.Backend) (c : Cache) (query : String) (args : List Arg) :
    Option (Cache × Except Error sql.Rows) :=
  QueryContext B c Context.background query args

/-- Go's `(*Cache).QueryRowContext`. -/
def QueryRowContext (B : sql.Backend) (c : Cache) (ctx : Context) (query : String)
    (args : List Arg) : Option (Cache × sql.Row) :=
  match stmt B c ctx query with
  | none => none
  | some (c, .error _) =>
    some ({ c with DB := c.DB ++ [sql.Call.QueryRowContext ctx query args] },
      B.QueryRowContext c.DB ctx query args)
  | some (c, .ok stmt) =>
    some ({ c with DB := c.DB ++ [sql.Call.StmtQueryRowContext stmt ctx args] },
      B.StmtQueryRowContext c.DB stmt ctx args)

/-- Go's `(*Cache).QueryRow`. -/
def QueryRow (B : sql.Backend) (c : Cache) (query : String) (args : List Arg) :
    Option (Cache × sql.Row) :=
  QueryRowContext B c Context.background query args

/-- Go's `(*Cache).ExecContext`. -/
def ExecContext (B : sql.Backend) (c : Cache) (ctx : Context) (query : String)
    (args : List Arg) : Option (Cache × Except Error sql.Result) :=
  match stmt B c ctx query with
  | none => none
  | some (c, .error err) => some (c, .error err)
  | some (c, .ok stmt) =>
    some ({ c with DB := c.DB ++ [sql.Call.StmtExecContext stmt ctx args] },
      B.StmtExecContext c.DB stmt ctx args)

/-- Go's `(*Cache).Exec`. -/
def Exec (B : sql.Backend) (c : Cache) (query : String) (args : List Arg) :
    Option (Cache × Except Error sql.Result) :=
  ExecContext B c Context.background query args

/-- Go's `(*Cache).Close`. -/
def Close (B : sql.Backend) (c : Cache) : Cache × Option Error :=
  let c1 : Cache := { c with stmts := none }
  ({ c1 with DB := c1.DB ++ [sql.Call.Close] }, B.Close c1.DB)

/-- Go's `(*Cache).Direct`. -/
def Direct (c : Cache) : sql.DB := c.DB

end Cache

/-! ## jmoiron/sqlx -/

namespace sqlx

/-- A prepared statement `*sqlx.Stmt`, by identity. -/
structure Stmt where
  id : Nat
  deriving DecidableEq, Repr

/-- A rows cursor `*sqlx.Rows`, by identity. -/
structure Rows where
  id : Nat
  deriving DecidableEq, Repr

/-- A deferred single-row result `*sqlx.Row`, by identity. -/
structure Row where
  id : Nat
  deriving DecidableEq, Repr

/-- The contents of a destination `dest interface{}` that a decode writes into. -/
structure Dest where
  rows : List (List Arg)
  deriving DecidableEq, Repr

/-- The calls the cache issues to a `*sqlx.DB` and to statements prepared on it.
`QueryRowx` is the method of `*sqlx.DB` itself, which `Cachex` promotes unchanged. -/
inductive Call where
  | PreparexContext (ctx : Context) (query : String)
  | StmtQueryxContext (stmt : Stmt) (ctx : Context) (args : List Arg)
  | StmtQueryContext (stmt : Stmt) (ctx : Context) (args : List Arg)
  | StmtQueryRowxContext (stmt : Stmt) (ctx : Context) (args : List Arg)
  | StmtQueryRowContext (stmt : Stmt) (ctx : Context) (args : List Arg)
  | StmtExecContext (stmt : Stmt) (ctx : Context) (args : List Arg)
  | QueryRowxContext (ctx : Context) (query : String) (args : List Arg)
  | QueryRowContext (ctx : Context) (query : String) (args : List Arg)
  | QueryRowx (query : String) (args : List Arg)
  | Close
  deriving DecidableEq, Repr

/-- A handle `*sqlx.DB`, identified with the history of calls issued to it. -/
abbrev DB := List Call

/-- The behaviour of the backend: its answer to a call, given the calls issued before;
`scanAll` and `scanAny` are the decoders the library applies to a returned cursor or row
(`scanAll` includes the deferred `rows.Close()`). -/
structure Backend where
  PreparexContext : DB → Context → String → Except Error Stmt
  StmtQueryxContext : DB → Stmt → Context → List Arg → Except Error Rows
  StmtQueryContext : DB → Stmt → Context → List Arg → Except Error sql.Rows
  StmtQueryRowxContext : DB → Stmt → Context → List Arg → Row
  StmtQueryRowContext : DB → Stmt → Context → List Arg → sql.Row
  StmtExecContext : DB → Stmt → Context → List Arg → Except Error sql.Result
  QueryRowxContext : DB → Context → String → List Arg → Row
  QueryRowContext : DB → Context → String → List Arg → sql.Row
  QueryRowx : DB → String → List Arg → Row
  Close : DB → Option Error
  scanAll : Rows → Dest → Dest × Option Error
  scanAny : Row → Dest → Dest × Option Error

/-- Whether a call is a compile of `query`. -/
def Call.isPrepare (query : String) : Call → Bool
  | .PreparexContext _ q => q == query
  | _ => false

/-- How many times compile was invoked for `query` in a history. -/
def prepares (db : DB) (query : String) : Nat :=
  db.countP (Call.isPrepare query)

/-- The interface `sqlx.Queryer` of the imported package (`Query`, `Queryx`, `QueryRowx`),
over a receiver with state `S`. -/
structure Queryer (S : Type) where
  Query : S → String → List Arg → Option (S × Except Error sql.Rows)
  Queryx : S → String → List Arg → Option (S × Except Error Rows)
  QueryRowx : S → String → List Arg → Option (S × Row)

/-- The interface `sqlx.QueryerContext` of the imported package (`QueryContext`,
`QueryxContext`, `QueryRowxContext`), over a receiver with state `S`. -/
structure QueryerContext (S : Type) where
  QueryContext : S → Context → String → List Arg → Option (S × Except Error sql.Rows)
  QueryxContext : S → Context → String → List Arg → Option (S × Except Error Rows)
  QueryRowxContext : S → Context → String → List Arg → Option (S × Row)

/-- The function `Select` of the imported package `github.com/jmoiron/sqlx` (not part of
this repository), as that package defines it: `q.Queryx`, then decode every row into
`dest`. -/
def Select {S : Type} (B : Backend) (q : Queryer S) (s : S) (dest : Dest) (query : String)
    (args : List Arg) : Option (S × Dest × Option Error) :=
  match q.Queryx s query args with
  | none => none
  | some (s, .error err) => some (s, dest, some err)
  | some (s, .ok rows) => some (s, B.scanAll rows dest)

/-- The function `Get` of the imported package `github.com/jmoiron/sqlx` (not part of this
repository), as that package defines it: `q.QueryRowx`, then decode the row into `dest`. -/
def Get {S : Type} (B : Backend) (q : Queryer S) (s : S) (dest : Dest) (query : String)
    (args : List Arg) : Option (S × Dest × Option Error) :=
  match q.QueryRowx s query args with
  | none => none
  | some (s, r) => some (s, B.scanAny r dest)

/-- The function `SelectContext` of the imported package `github.com/jmoiron/sqlx` (not part
of this repository), as that package defines it: `q.QueryxContext`, then decode every row
into `dest`. -/
def SelectContext {S : Type} (B : Backend) (ctx : Context) (q : QueryerContext S) (s : S)
    (dest : Dest) (query : String) (args : List Arg) : Option (S × Dest × Option Error) :=
  match q.QueryxContext s ctx query args with
  | none => none
  | some (s, .error err) => some (s, dest, some err)
  | some (s, .ok rows) => some (s, B.scanAll rows dest)

/-- The function `GetContext` of the imported package `github.com/jmoiron/sqlx` (not part of
this repository), as that package defines it: `q.QueryRowxContext`, then decode the row
into `dest`. -/
def GetContext {S : Type} (B : Backend) (ctx : Context) (q : QueryerContext S) (s : S)
    (dest : Dest) (query : String) (args : List Arg) : Option (S × Dest × Option Error) :=
  match q.QueryRowxContext s ctx query args with
  | none => none
  | some (s, r) => some (s, B.scanAny r dest)

end sqlx

/-! ## cachex.go -/

/-- The struct `Cachex`: the embedded `*sqlx.DB` and the map `stmts`
(`mu` is modelled in the small-step machine only). -/
structure Cachex where
  DB : sqlx.DB
  stmts : GoMap sqlx.Stmt
  deriving DecidableEq, Repr

/-- Go's `NewCachex`. -/
def NewCachex (db : sqlx.DB) (err : Option Error) : Except Error Cachex :=
  match err with
  | some e => .error e
  | none => .ok { DB := db, stmts := none }

namespace Cachex

/-- Go's `(*Cachex).stmt`; the outer `none` is a run-time fault. -/
def stmt (B : sqlx.Backend) (c : Cachex) (ctx : Context) (query : String) :
    Option (Cachex × Except Error sqlx.Stmt) :=
  match GoMap.lookup c.stmts query with
  | some stmt => some (c, .ok stmt)
  | none =>
    match GoMap.lookup c.stmts query with
    | some stmt => some (c, .ok stmt)
    | none =>
      let c1 : Cachex := { c with DB := c.DB ++ [sqlx.Call.PreparexContext ctx query] }
      match B.PreparexContext c.DB ctx query with
      | .error err => some (c1, .error err)
      | .ok stmt =>
        let c2 : Cachex := if c1.stmts = none then { c1 with stmts := some [] } else c1
        match GoMap.assign c2.stmts query stmt with
        | none => none
        | some m => some ({ c2 with stmts := m }, .ok stmt)

/-- Go's `(*Cachex).QueryxContext`. -/
def QueryxContext (B : sqlx.Backend) (c : Cachex) (ctx : Context) (query : String)
    (args : List Arg) : Option (Cachex × Except Error sqlx.Rows) :=
  match stmt B c ctx query with
  | none => none
  | some (c, .error err) => some (c, .error err)
  | some (c, .ok stmt) =>
    some ({ c with DB := c.DB ++ [sqlx.Call.StmtQueryxContext stmt ctx args] },
      B.StmtQueryxContext c.DB stmt ctx args)

/-- Go's `(*Cachex).Queryx`. -/
def Queryx (B : sqlx.Backend) (c : Cachex) (query : String) (args : List Arg) :
    Option (Cachex × Except Error sqlx.Rows) :=
  QueryxContext B c Context.background query args

/-- Go's `(*Cachex).QueryContext`. -/
def QueryContext (B : sqlx.Backend) (c : Cachex) (ctx : Context) (query : String)
    (args : List Arg) : Option (Cachex × Except Error sql.Rows) :=
  match stmt B c ctx query with
  | none => none
  | some (c, .error err) => some (c, .error err)
  | some (c, .ok stmt) =>
    some ({ c with DB := c.DB ++ [sqlx.Call.StmtQueryContext stmt ctx args] },
      B.StmtQueryContext c.DB stmt ctx args)

/-- Go's `(*Cachex).Query`. -/
def Query (B : sqlx.Backend) (c : Cachex) (query : String) (args : List Arg) :
    Option (Cachex × Except Error sql.Rows) :=
  QueryContext B c Context.background query args

/-- Go's `(*Cachex).QueryRowxContext`. -/
def QueryRowxContext (B : sqlx.Backend) (c : Cachex) (ctx : Context) (query : String)
    (args : List Arg) : Option (Cachex × sqlx.Row) :=
  match stmt B c ctx query with
  | none => none
  | some (c, .error _) =>
    some ({ c with DB := c.DB ++ [sqlx.Call.QueryRowxContext ctx query args] },
      B.QueryRowxContext c.DB ctx query args)
  | some (c, .ok stmt) =>
    some ({ c with DB := c.DB ++ [sqlx.Call.StmtQueryRowxContext stmt ctx args] },
      B.StmtQueryRowxContext c.DB stmt ctx args)

/-- Go's `(*Cachex).QueryxRow`. -/
def QueryxRow (B : sqlx.Backend) (c : Cachex) (query : String) (args : List Arg) :
    Option (Cachex × sqlx.Row) :=
  QueryRowxContext B c Context.background query args

/-- Go's `(*Cachex).QueryRowContext`. -/
def QueryRowContext (B : sqlx.Backend) (c : Cachex) (ctx : Context) (query : String)
    (args : List Arg) : Option (Cachex × sql.Row) :=
  match stmt B c ctx query with
  | none => none
  | some (c, .error _) =>
    some ({ c with DB := c.DB ++ [sqlx.Call.QueryRowContext ctx query args] },
      B.QueryRowContext c.DB ctx query args)
  | some (c, .ok stmt) =>
    some ({ c with DB := c.DB ++ [sqlx.Call.StmtQueryRowContext stmt ctx args] },
      B.StmtQueryRowContext c.DB stmt ctx args)

/-- Go's `(*Cachex).QueryRow`. -/
def QueryRow (B : sqlx.Backend) (c : Cachex) (query : String) (args : List Arg) :
    Option (Cachex × sql.Row) :=
  QueryRowContext B c Context.background query args

/-- Go's `(*Cachex).ExecContext`. -/
def ExecContext (B : sqlx.Backend) (c : Cachex) (ctx : Context) (query : String)
    (args : List Arg) : Option (Cachex × Except Error sql.Result) :=
  match stmt B c ctx query with
  | none => none
  | some (c, .error err) => some (c, .error err)
  | some (c, .ok stmt) =>
    some ({ c with DB := c.DB ++ [sqlx.Call.StmtExecContext stmt ctx args] },
      B.StmtExecContext c.DB stmt ctx args)

/-- Go's `(*Cachex).Exec`. -/
def Exec (B : sqlx.Backend) (c : Cachex) (query : String) (args : List Arg) :
    Option (Cachex × Except Error sql.Result) :=
  ExecContext B c Context.background query args

/-- The method `QueryRowx` of `*Cachex`.  `Cachex` declares `QueryxRow` but no `QueryRowx`,
so this is the method of the embedded `*sqlx.DB`, promoted: it runs the query on the
backend directly and does not touch `stmts`. -/
def QueryRowx (B : sqlx.Backend) (c : Cachex) (query : String) (args : List Arg) :
    Option (Cachex × sqlx.Row) :=
  some ({ c with DB := c.DB ++ [sqlx.Call.QueryRowx query args] }, B.QueryRowx c.DB query args)

/-- The value `c` as a `sqlx.Queryer`: the method set of `*Cachex`. -/
def asQueryer (B : sqlx.Backend) : sqlx.Queryer Cachex where
  Query := Query B
  Queryx := Queryx B
  QueryRowx := QueryRowx B

/-- The value `c` as a `sqlx.QueryerContext`: the method set of `*Cachex`. -/
def asQueryerContext (B : sqlx.Backend) : sqlx.QueryerContext Cachex where
  QueryContext := QueryContext B
  QueryxContext := QueryxContext B
  QueryRowxContext := QueryRowxContext B

/-- Go's `(*Cachex).SelectContext`. -/
def SelectContext (B : sqlx.Backend) (c : Cachex) (ctx : Context) (dest : sqlx.Dest)
    (query : String) (args : List Arg) : Option (Cachex × sqlx.Dest × Option Error) :=
  sqlx.SelectContext B ctx (asQueryerContext B) c dest query args

/-- Go's `(*Cachex).Select`. -/
def Select (B : sqlx.Backend) (c : Cachex) (dest : sqlx.Dest) (query : String)
    (args : List Arg) : Option (Cachex × sqlx.Dest × Option Error) :=
  sqlx.Select B (asQueryer B) c dest query args

/-- Go's `(*Cachex).GetContext`. -/
def GetContext (B : sqlx.Backend) (c : Cachex) (ctx : Context) (dest : sqlx.Dest)
    (query : String) (args : List Arg) : Option (Cachex × sqlx.Dest × Option Error) :=
  sqlx.GetContext B ctx (asQueryerContext B) c dest query args

/-- Go's `(*Cachex).Get`. -/
def Get (B : sqlx.Backend) (c : Cachex) (dest : sqlx.Dest) (query : String)
    (args : List Arg) : Option (Cachex × sqlx.Dest × Option Error) :=
  sqlx.Get B (asQueryer B) c dest query args

/-- Go's `(*Cachex).Close`. -/
def Close (B : sqlx.Backend) (c : Cachex) : Cachex × Option Error :=
  let c1 : Cachex := { c with stmts := none }
  ({ c1 with DB := c1.DB ++ [sqlx.Call.Close] }, B.Close c1.DB)

/-- Go's `(*Cachex).Direct`. -/
def Direct (c : Cachex) : sqlx.DB := c.DB

end Cachex

/-! ## Sequences of operations -/

namespace Cache

/-- A call of a method of `*Cache` other than `Close` and `Direct`. -/
inductive Op where
  | stmt (ctx : Context) (query : String)
  | QueryContext (ctx : Context) (query : String) (args : List Arg)
  | Query (query : String) (args : List Arg)
  | QueryRowContext (ctx : Context) (query : String) (args : List Arg)
  | QueryRow (query : String) (args : List Arg)
  | ExecContext (ctx : Context) (query : String) (args : List Arg)
  | Exec (query : String) (args : List Arg)
  deriving DecidableEq, Repr

/-- The query text an operation is called with. -/
def Op.query : Op → String
  | .stmt _ q => q
  | .QueryContext _ q _ => q
  | .Query q _ => q
  | .QueryRowContext _ q _ => q
  | .QueryRow q _ => q
  | .ExecContext _ q _ => q
  | .Exec q _ => q

/-- The context an operation runs under. -/
def Op.ctx : Op → Context
  | .stmt ctx _ => ctx
  | .QueryContext ctx _ _ => ctx
  | .Query _ _ => Context.background
  | .QueryRowContext ctx _ _ => ctx
  | .QueryRow _ _ => Context.background
  | .ExecContext ctx _ _ => ctx
  | .Exec _ _ => Context.background

/-- The cache after an operation; `none` is a run-time fault. -/
def Op.run (B : sql.Backend) (c : Cache) : Op → Option Cache
  | .stmt ctx q => (Cache.stmt B c ctx q).map Prod.fst
  | .QueryContext ctx q args => (Cache.QueryContext B c ctx q args).map Prod.fst
  | .Query q args => (Cache.Query B c q args).map Prod.fst
  | .QueryRowContext ctx q args => (Cache.QueryRowContext B c ctx q args).map Prod.fst
  | .QueryRow q args => (Cache.QueryRow B c q args).map Prod.fst
  | .ExecContext ctx q args => (Cache.ExecContext B c ctx q args).map Prod.fst
  | .Exec q args => (Cache.Exec B c q args).map Prod.fst

/-- The cache after a sequence of operations, run one after the other. -/
def runOps (B : sql.Backend) : Cache → List Op → Option Cache
  | c, [] => some c
  | c, op :: ops =>
    match op.run B c with
    | none => none
    | some c1 => runOps B c1 ops

end Cache

namespace Cachex

/-- A call of a method of `*Cachex` other than `Close` and `Direct`. -/
inductive Op where
  | stmt (ctx : Context) (query : String)
  | SelectContext (ctx : Context) (dest : sqlx.Dest) (query : String) (args : List Arg)
  | Select (dest : sqlx.Dest) (query : String) (args : List Arg)
  | GetContext (ctx : Context) (dest : sqlx.Dest) (query : String) (args : List Arg)
  | Get (dest : sqlx.Dest) (query : String) (args : List Arg)
  | QueryxContext (ctx : Context) (query : String) (args : List Arg)
  | Queryx (query : String) (args : List Arg)
  | QueryContext (ctx : Context) (query : String) (args : List Arg)
  | Query (query : String) (args : List Arg)
  | QueryRowxContext (ctx : Context) (query : String) (args : List Arg)
  | QueryxRow (query : String) (args : List Arg)
  | QueryRowContext (ctx : Context) (query : String) (args : List Arg)
  | QueryRow (query : String) (args : List Arg)
  | ExecContext (ctx : Context) (query : String) (args : List Arg)
  | Exec (query : String) (args : List Arg)
  deriving DecidableEq, Repr

/-- The query text an operation is called with. -/
def Op.query : Op → String
  | .stmt _ q => q
  | .SelectContext _ _ q _ => q
  | .Select _ q _ => q
  | .GetContext _ _ q _ => q
  | .Get _ q _ => q
  | .QueryxContext _ q _ => q
  | .Queryx q _ => q
  | .QueryContext _ q _ => q
  | .Query q _ => q
  | .QueryRowxContext _ q _ => q
  | .QueryxRow q _ => q
  | .QueryRowContext _ q _ => q
  | .QueryRow q _ => q
  | .ExecContext _ q _ => q
  | .Exec q _ => q

/-- The context an operation runs under. -/
def Op.ctx : Op → Context
  | .stmt ctx _ => ctx
  | .SelectContext ctx _ _ _ => ctx
  | .GetContext ctx _ _ _ => ctx
  | .QueryxContext ctx _ _ => ctx
  | .QueryContext ctx _ _ => ctx
  | .QueryRowxContext ctx _ _ => ctx
  | .QueryRowContext ctx _ _ => ctx
  | .ExecContext ctx _ _ => ctx
  | _ => Context.background

/-- Whether the operation is one of the execute operations (query, single row, modify),
not the bare resolve and not a structured decode. -/
def Op.isExecute : Op → Bool
  | .stmt _ _ => false
  | .SelectContext _ _ _ _ => false
  | .Select _ _ _ => false
  | .GetContext _ _ _ _ => false
  | .Get _ _ _ => false
  | _ => true

/-- The cache after an operation; `none` is a run-time fault. -/
def Op.run (B : sqlx.Backend) (c : Cachex) : Op → Option Cachex
  | .stmt ctx q => (Cachex.stmt B c ctx q).map Prod.fst
  | .SelectContext ctx dest q args => (Cachex.SelectContext B c ctx dest q args).map Prod.fst
  | .Select dest q args => (Cachex.Select B c dest q args).map Prod.fst
  | .GetContext ctx dest q args => (Cachex.GetContext B c ctx dest q args).map Prod.fst
  | .Get dest q args => (Cachex.Get B c dest q args).map Prod.fst
  | .QueryxContext ctx q args => (Cachex.QueryxContext B c ctx q args).map Prod.fst
  | .Queryx q args => (Cachex.Queryx B c q args).map Prod.fst
  | .QueryContext ctx q args => (Cachex.QueryContext B c ctx q args).map Prod.fst
  | .Query q args => (Cachex.Query B c q args).map Prod.fst
  | .QueryRowxContext ctx q args => (Cachex.QueryRowxContext B c ctx q args).map Prod.fst
  | .QueryxRow q args => (Cachex.QueryxRow B c q args).map Prod.fst
  | .QueryRowContext ctx q args => (Cachex.QueryRowContext B c ctx q args).map Prod.fst
  | .QueryRow q args => (Cachex.QueryRow B c q args).map Prod.fst
  | .ExecContext ctx q args => (Cachex.ExecContext B c ctx q args).map Prod.fst
  | .Exec q args => (Cachex.Exec B c q args).map Prod.fst

/-- The cache after a sequence of operations, run one after the other. -/
def runOps (B : sqlx.Backend) : Cachex → List Op → Option Cachex
  | c, [] => some c
  | c, op :: ops =>
    match op.run B c with
    | none => none
    | some c1 => runOps B c1 ops

end Cachex

/-! ## Example backends -/

/-- An example `database/sql` backend: nothing compiles once the handle is closed, the text
`SELEKT 1` never compiles, every other text compiles to a fresh statement; results are
numbered by the length of the history. -/
def sql.Backend.sample : sql.Backend where
  PrepareContext db _ query :=
    if sql.Call.Close ∈ db then .error ⟨"sql: database is closed"⟩
    else if query = "SELEKT 1" then .error ⟨"syntax error"⟩ else .ok ⟨db.length⟩
  StmtQueryContext db _ _ _ := .ok ⟨db.length⟩
  StmtQueryRowContext db _ _ _ := ⟨db.length⟩
  StmtExecContext db _ _ _ := .ok ⟨db.length⟩
  QueryRowContext db _ _ _ := ⟨db.length⟩
  Close db := if sql.Call.Close ∈ db then some ⟨"sql: database is closed"⟩ else none

/-- An example `database/sql` backend on which the context `Context.derived 9` is cancelled:
under it nothing compiles, under any other context every text compiles to a fresh
statement. -/
def sql.Backend.cancelled : sql.Backend where
  PrepareContext db ctx _ :=
    if ctx = Context.derived 9 then .error ⟨"context canceled"⟩ else .ok ⟨db.length⟩
  StmtQueryContext db _ _ _ := .ok ⟨db.length⟩
  StmtQueryRowContext db _ _ _ := ⟨db.length⟩
  StmtExecContext db _ _ _ := .ok ⟨db.length⟩
  QueryRowContext db _ _ _ := ⟨db.length⟩
  Close _ := none

/-- An example sqlx backend, like `sql.Backend.sample`. -/
def sqlx.Backend.sample : sqlx.Backend where
  PreparexContext db _ query :=
    if sqlx.Call.Close ∈ db then .error ⟨"sql: database is closed"⟩
    else if query = "SELEKT 1" then .error ⟨"syntax error"⟩ else .ok ⟨db.length⟩
  StmtQueryxContext db _ _ _ := .ok ⟨db.length⟩
  StmtQueryContext db _ _ _ := .ok ⟨db.length⟩
  StmtQueryRowxContext db _ _ _ := ⟨db.length⟩
  StmtQueryRowContext db _ _ _ := ⟨db.length⟩
  StmtExecContext db _ _ _ := .ok ⟨db.length⟩
  QueryRowxContext db _ _ _ := ⟨db.length⟩
  QueryRowContext db _ _ _ := ⟨db.length⟩
  QueryRowx db _ _ := ⟨db.length⟩
  Close db := if sqlx.Call.Close ∈ db then some ⟨"sql: database is closed"⟩ else none
  scanAll _ dest := (dest, none)
  scanAny _ dest := (dest, none)

/-! ## `stmt` under `sync.RWMutex`, statement by statement

Concurrent callers of `stmt` on one cache.  Each caller runs the body of `stmt` one
statement at a time; a scheduler picks which caller moves next.  `Lock` waits while the
lock is held by a writer or by readers, `RLock` waits while it is held by a writer.  (Go's
`RLock` also waits while a writer is waiting; the machine lets the reader in, so the
interleavings of the program are among those of the machine.)  The two methods `Cache.stmt`
and `Cachex.stmt` differ in the compile call only, which is a parameter here. -/

namespace Steps

/-- The compile operation `stmt` uses: the call it records and the backend's answer. -/
structure Compile (C V : Type) where
  call : Context → String → C
  answer : List C → Context → String → Except Error V

/-- Where a caller stands in the body of `stmt`, with the values of its local variables. -/
inductive Pc (V : Type) where
  /-- About to run `c.mu.RLock()`. -/
  | rlock
  /-- About to run `stmt, ok := c.stmts[query]`. -/
  | read
  /-- About to run `c.mu.RUnlock()`. -/
  | runlock (found : Option V)
  /-- About to test `if ok`. -/
  | check (found : Option V)
  /-- About to run `c.mu.Lock()`. -/
  | lock
  /-- About to run `if stmt, ok := c.stmts[query]; ok`. -/
  | recheck
  /-- About to call `c.DB.PrepareContext(ctx, query)`. -/
  | prepare
  /-- About to test `if err != nil`. -/
  | checkErr (r : Except Error V)
  /-- About to test `if c.stmts == nil`. -/
  | checkNil (stmt : V)
  /-- About to run `c.stmts[query] = stmt`. -/
  | store (stmt : V)
  /-- Returning `r`: about to run the deferred `c.mu.Unlock()`. -/
  | unlock (r : Except Error V)
  /-- Returned `r`. -/
  | done (r : Except Error V)
  /-- Stopped by a run-time fault (the deferred `c.mu.Unlock()` ran as it unwound). -/
  | fault

/-- Whether the caller holds the read lock. -/
def Pc.inRead {V : Type} : Pc V → Bool
  | .read => true
  | .runlock _ => true
  | _ => false

/-- Whether the caller holds the write lock. -/
def Pc.inWrite {V : Type} : Pc V → Bool
  | .recheck => true
  | .prepare => true
  | .checkErr _ => true
  | .checkNil _ => true
  | .store _ => true
  | .unlock _ => true
  | _ => false

/-- Whether the caller has returned. -/
def Pc.isDone {V : Type} : Pc V → Bool
  | .done _ => true
  | _ => false

/-- An upper bound on the statements a caller has yet to run. -/
def Pc.fuel {V : Type} : Pc V → Nat
  | .rlock => 11
  | .read => 10
  | .runlock _ => 9
  | .check _ => 8
  | .lock => 7
  | .recheck => 6
  | .prepare => 5
  | .checkErr _ => 4
  | .checkNil _ => 3
  | .store _ => 2
  | .unlock _ => 1
  | .done _ => 0
  | .fault => 0

/-- A caller of `stmt`: its arguments and where it stands. -/
structure Caller (V : Type) where
  ctx : Context
  query : String
  pc : Pc V

/-- What the callers share: the fields `DB` and `stmts` of the cache and the state of `mu`
(how many hold the read lock, whether the write lock is held). -/
structure Shared (C V : Type) where
  DB : List C
  stmts : GoMap V
  readers : Nat
  writer : Bool

/-- The cache together with its callers. -/
structure Sys (C V : Type) where
  mem : Shared C V
  callers : List (Caller V)

/-- One statement of a caller: the shared state and the caller's position afterwards;
`none` when the caller has to wait or has stopped. -/
def next {C V : Type} (K : Compile C V) (m : Shared C V) (t : Caller V) :
    Option (Shared C V × Pc V) :=
  match t.pc with
  | .rlock => if m.writer then none else some ({ m with readers := m.readers + 1 }, .read)
  | .read => some (m, .runlock (GoMap.lookup m.stmts t.query))
  | .runlock found => some ({ m with readers := m.readers - 1 }, .check found)
  | .check found =>
    match found with
    | some stmt => some (m, .done (.ok stmt))
    | none => some (m, .lock)
  | .lock =>
    if m.writer || m.readers != 0 then none else some ({ m with writer := true }, .recheck)
  | .recheck =>
    match GoMap.lookup m.stmts t.query with
    | some stmt => some (m, .unlock (.ok stmt))
    | none => some (m, .prepare)
  | .prepare =>
    some ({ m with DB := m.DB ++ [K.call t.ctx t.query] },
      .checkErr (K.answer m.DB t.ctx t.query))
  | .checkErr r =>
    match r with
    | .error err => some (m, .unlock (.error err))
    | .ok stmt => some (m, .checkNil stmt)
  | .checkNil stmt =>
    match m.stmts with
    | none => some ({ m with stmts := some [] }, .store stmt)
    | some _ => some (m, .store stmt)
  | .store stmt =>
    match GoMap.assign m.stmts t.query stmt with
    | none => some ({ m with writer := false }, .fault)
    | some stmts => some ({ m with stmts := stmts }, .unlock (.ok stmt))
  | .unlock r => some ({ m with writer := false }, .done r)
  | .done _ => none
  | .fault => none

/-- Caller number `i` runs one statement; `none` when there is no such caller, or it has
to wait, or it has stopped. -/
def step {C V : Type} (K : Compile C V) (s : Sys C V) (i : Nat) : Option (Sys C V) :=
  match s.callers[i]? with
  | none => none
  | some t =>
    match next K s.mem t with
    | none => none
    | some (m, pc) => some { mem := m, callers := s.callers.set i { t with pc := pc } }

/-- An interleaving: the callers named by the schedule move in turn; a caller that cannot
move when named is passed over. -/
def exec {C V : Type} (K : Compile C V) (s : Sys C V) : List Nat → Sys C V
  | [] => s
  | i :: rest =>
    match step K s i with
    | none => exec K s rest
    | some s1 => exec K s1 rest

/-- The callers request `query` at the same time, one per context in `ctxs`: nobody holds
the lock and every caller is at the first statement of `stmt`. -/
def start {C V : Type} (db : List C) (stmts : GoMap V) (query : String)
    (ctxs : List Context) : Sys C V where
  mem := { DB := db, stmts := stmts, readers := 0, writer := false }
  callers := ctxs.map fun ctx => { ctx := ctx, query := query, pc := .rlock }

/-- The statements the callers have yet to run, at most. -/
def fuel {V : Type} : List (Caller V) → Nat
  | [] => 0
  | t :: rest => t.pc.fuel + fuel rest

/-- What the callers that have returned have returned, in order. -/
def results {V : Type} : List (Caller V) → List (Except Error V)
  | [] => []
  | t :: rest =>
    match t.pc with
    | .done r => r :: results rest
    | _ => results rest

end Steps

/-- The compile call of `Cache.stmt`. -/
def Cache.compile (B : sql.Backend) : Steps.Compile sql.Call sql.Stmt where
  call := sql.Call.PrepareContext
  answer := B.PrepareContext

/-- The compile call of `Cachex.stmt`. -/
def Cachex.compile (B : sqlx.Backend) : Steps.Compile sqlx.Call sqlx.Stmt where
  call := sqlx.Call.PreparexContext
  answer := B.PreparexContext

/-! ## The invariant of concurrent callers -/

namespace Steps

/-- What a caller may be doing while nobody has compiled yet. -/
def Pc.early {V : Type} : Pc V → Prop
  | .rlock => True
  | .read => True
  | .runlock found => found = none
  | .check found => found = none
  | .lock => True
  | .recheck => True
  | .prepare => True
  | _ => False

/-- What a caller may be doing while the one that compiled `h` has yet to store it in the
map `m`. -/
def Pc.storing {V : Type} (h : V) (m : GoMap V) : Pc V → Prop
  | .rlock => True
  | .read => True
  | .runlock found => found = none
  | .check found => found = none
  | .lock => True
  | .checkErr r => r = .ok h
  | .checkNil stmt => stmt = h
  | .store stmt => stmt = h ∧ m ≠ none
  | _ => False

/-- What a caller may be doing once `h` is stored. -/
def Pc.late {V : Type} (h : V) : Pc V → Prop
  | .rlock => True
  | .read => True
  | .runlock found => found = none ∨ found = some h
  | .check found => found = none ∨ found = some h
  | .lock => True
  | .recheck => True
  | .unlock r => r = .ok h
  | .done r => r = .ok h
  | _ => False

/-- The state of the lock agrees with where the callers stand: `readers` counts the callers
between `RLock` and `RUnlock`, and the write lock is held exactly when one caller, and then
only one, is between `Lock` and `Unlock`. -/
def Locks {C V : Type} (s : Sys C V) : Prop :=
  s.mem.readers = s.callers.countP (fun t => t.pc.inRead) ∧
  s.callers.countP (fun t => t.pc.inWrite) = if s.mem.writer then 1 else 0

/-- How far the compilation of `query` has got, from the history `db` on: not started;
compiled by the caller with context `ctx` but the handle not stored yet; stored. -/
def Phase {C V : Type} (K : Compile C V) (db : List C) (query : String)
    (ctxs : List Context) (s : Sys C V) : Prop :=
  (s.mem.DB = db ∧ GoMap.lookup s.mem.stmts query = none ∧
    ∀ (j : Nat) (t : Caller V), s.callers[j]? = some t → t.pc.early) ∨
  ∃ ctx h, ctx ∈ ctxs ∧ K.answer db ctx query = .ok h ∧
    s.mem.DB = db ++ [K.call ctx query] ∧
    ((GoMap.lookup s.mem.stmts query = none ∧ s.mem.writer = true ∧
        ∀ (j : Nat) (t : Caller V), s.callers[j]? = some t → t.pc.storing h s.mem.stmts) ∨
      (GoMap.lookup s.mem.stmts query = some h ∧
        ∀ (j : Nat) (t : Caller V), s.callers[j]? = some t → t.pc.late h))

/-- The invariant of the callers of `stmt` that all request `query`. -/
def Inv {C V : Type} (K : Compile C V) (db : List C) (query : String)
    (ctxs : List Context) (s : Sys C V) : Prop :=
  Locks s ∧
  (∀ (j : Nat) (t : Caller V), s.callers[j]? = some t → t.query = query ∧ t.ctx ∈ ctxs) ∧
  Phase K db query ctxs s

end Steps

/-- Concurrent callers of `Cache.stmt` for `query`, one per context in `ctxs`, on a cache
with history `db` and map `stmts`, after the interleaving `sched`. -/
def Cache.concurrentStmt (B : sql.Backend) (db : sql.DB) (stmts : GoMap sql.Stmt)
    (query : String) (ctxs : List Context) (sched : List Nat) : Steps.Sys sql.Call sql.Stmt :=
  Steps.exec (Cache.compile B) (Steps.start db stmts query ctxs) sched

/-- Concurrent callers of `Cachex.stmt` for `query`, one per context in `ctxs`, on a cache
with history `db` and map `stmts`, after the interleaving `sched`. -/
def Cachex.concurrentStmt (B : sqlx.Backend) (db : sqlx.DB) (stmts : GoMap sqlx.Stmt)
    (query : String) (ctxs : List Context) (sched : List Nat) :
    Steps.Sys sqlx.Call sqlx.Stmt :=
  Steps.exec (Cachex.compile B) (Steps.start db stmts query ctxs) sched

/-! # Theorems -/

/-! ## Go maps -/

theorem find_put_same {V : Type} (es : List (String × V)) (k : String) (v : V) :
    GoMap.find (GoMap.put es k v) k = some v := by
  induction es with
  | nil => simp [GoMap.put, GoMap.find]
  | cons e rest ih =>
    obtain ⟨k', w⟩ := e
    by_cases hk : k' = k
    · simp [GoMap.put, GoMap.find, hk]
    · simp [GoMap.put, GoMap.find, hk, ih]

theorem find_put_other {V : Type} (es : List (String × V)) (k k' : String) (v : V)
    (hne : k' ≠ k) : GoMap.find (GoMap.put es k v) k' = GoMap.find es k' := by
  induction es with
  | nil => simp [GoMap.put, GoMap.find, Ne.symm hne]
  | cons e rest ih =>
    obtain ⟨k0, w⟩ := e
    by_cases hk : k0 = k
    · subst hk
      simp [GoMap.put, GoMap.find, Ne.symm hne]
    · by_cases hk' : k0 = k'
      · subst hk'
        simp [GoMap.put, GoMap.find, hk]
      · simp [GoMap.put, GoMap.find, hk, hk', ih]

/-! ## The history of calls -/

theorem sql_prepares_nil (q : String) : sql.prepares [] q = 0 := rfl

theorem sql_prepares_cons (call : sql.Call) (db : sql.DB) (q : String) :
    sql.prepares (call :: db) q
      = sql.prepares db q + (if sql.Call.isPrepare q call then 1 else 0) := by
  simp [sql.prepares, List.countP_cons]

theorem sql_prepares_append (db db1 : sql.DB) (q : String) :
    sql.prepares (db ++ db1) q = sql.prepares db q + sql.prepares db1 q := by
  simp [sql.prepares, List.countP_append]

theorem sqlx_prepares_nil (q : String) : sqlx.prepares [] q = 0 := rfl

theorem sqlx_prepares_cons (call : sqlx.Call) (db : sqlx.DB) (q : String) :
    sqlx.prepares (call :: db) q
      = sqlx.prepares db q + (if sqlx.Call.isPrepare q call then 1 else 0) := by
  simp [sqlx.prepares, List.countP_cons]

theorem sqlx_prepares_append (db db1 : sqlx.DB) (q : String) :
    sqlx.prepares (db ++ db1) q = sqlx.prepares db q + sqlx.prepares db1 q := by
  simp [sqlx.prepares, List.countP_append]

/-! ## Resolve, `cache.go` -/

theorem cache_stmt_hit (B : sql.Backend) (c : Cache) (ctx : Context) (q : String)
    (h : sql.Stmt) (hc : GoMap.lookup c.stmts q = some h) :
    Cache.stmt B c ctx q = some (c, .ok h) := by
  simp [Cache.stmt, hc]

theorem cache_stmt_miss_error (B : sql.Backend) (c : Cache) (ctx : Context) (q : String)
    (e : Error) (hc : GoMap.lookup c.stmts q = none)
    (hp : B.PrepareContext c.DB ctx q = .error e) :
    Cache.stmt B c ctx q
      = some ({ c with DB := c.DB ++ [sql.Call.PrepareContext ctx q] }, .error e) := by
  simp [Cache.stmt, hc, hp]

theorem cache_stmt_miss_ok (B : sql.Backend) (c : Cache) (ctx : Context) (q : String)
    (h : sql.Stmt) (hc : GoMap.lookup c.stmts q = none)
    (hp : B.PrepareContext c.DB ctx q = .ok h) :
    Cache.stmt B c ctx q
      = some ({ DB := c.DB ++ [sql.Call.PrepareContext ctx q],
                stmts := some (GoMap.put (c.stmts.getD []) q h) }, .ok h) := by
  obtain ⟨db, m⟩ := c
  cases m with
  | none => simp [Cache.stmt, GoMap.lookup, hp, GoMap.assign] at *
  | some es => simp [Cache.stmt, GoMap.lookup, hp, GoMap.assign] at *; simp [hc, hp]

/-- Resolve is a function of the map entry and of the compile result: it never faults. -/
theorem cache_stmt_eq (B : sql.Backend) (c : Cache) (ctx : Context) (q : String) :
    Cache.stmt B c ctx q =
      match GoMap.lookup c.stmts q with
      | some h => some (c, .ok h)
      | none =>
        match B.PrepareContext c.DB ctx q with
        | .error e => some ({ c with DB := c.DB ++ [sql.Call.PrepareContext ctx q] }, .error e)
        | .ok h => some ({ DB := c.DB ++ [sql.Call.PrepareContext ctx q],
                           stmts := some (GoMap.put (c.stmts.getD []) q h) }, .ok h) := by
  cases hc : GoMap.lookup c.stmts q with
  | some h => simp [cache_stmt_hit B c ctx q h hc]
  | none =>
    cases hp : B.PrepareContext c.DB ctx q with
    | error e => simp [cache_stmt_miss_error B c ctx q e hc hp]
    | ok h => simp [cache_stmt_miss_ok B c ctx q h hc hp]

/-! ## Resolve, `cachex.go` -/

theorem cachex_stmt_hit (B : sqlx.Backend) (c : Cachex) (ctx : Context) (q : String)
    (h : sqlx.Stmt) (hc : GoMap.lookup c.stmts q = some h) :
    Cachex.stmt B c ctx q = some (c, .ok h) := by
  simp [Cachex.stmt, hc]

theorem cachex_stmt_miss_error (B : sqlx.Backend) (c : Cachex) (ctx : Context) (q : String)
    (e : Error) (hc : GoMap.lookup c.stmts q = none)
    (hp : B.PreparexContext c.DB ctx q = .error e) :
    Cachex.stmt B c ctx q
      = some ({ c with DB := c.DB ++ [sqlx.Call.PreparexContext ctx q] }, .error e) := by
  simp [Cachex.stmt, hc, hp]

theorem cachex_stmt_miss_ok (B : sqlx.Backend) (c : Cachex) (ctx : Context) (q : String)
    (h : sqlx.Stmt) (hc : GoMap.lookup c.stmts q = none)
    (hp : B.PreparexContext c.DB ctx q = .ok h) :
    Cachex.stmt B c ctx q
      = some ({ DB := c.DB ++ [sqlx.Call.PreparexContext ctx q],
                stmts := some (GoMap.put (c.stmts.getD []) q h) }, .ok h) := by
  obtain ⟨db, m⟩ := c
  cases m with
  | none => simp [Cachex.stmt, GoMap.lookup, hp, GoMap.assign] at *
  | some es => simp [Cachex.stmt, GoMap.lookup, hp, GoMap.assign] at *; simp [hc, hp]

/-- Resolve is a function of the map entry and of the compile result: it never faults. -/
theorem cachex_stmt_eq (B : sqlx.Backend) (c : Cachex) (ctx : Context) (q : String) :
    Cachex.stmt B c ctx q =
      match GoMap.lookup c.stmts q with
      | some h => some (c, .ok h)
      | none =>
        match B.PreparexContext c.DB ctx q with
        | .error e =>
          some ({ c with DB := c.DB ++ [sqlx.Call.PreparexContext ctx q] }, .error e)
        | .ok h => some ({ DB := c.DB ++ [sqlx.Call.PreparexContext ctx q],
                           stmts := some (GoMap.put (c.stmts.getD []) q h) }, .ok h) := by
  cases hc : GoMap.lookup c.stmts q with
  | some h => simp [cachex_stmt_hit B c ctx q h hc]
  | none =>
    cases hp : B.PreparexContext c.DB ctx q with
    | error e => simp [cachex_stmt_miss_error B c ctx q e hc hp]
    | ok h => simp [cachex_stmt_miss_ok B c ctx q h hc hp]

/-! ## The fast path -/

/-- C2: when the map holds `h` under `q`, resolve returns `h` with no error and leaves
the whole cache as it was: the map is unchanged and nothing is added to the history of
backend calls, so compile is not invoked. Both `Cache.stmt` and `Cachex.stmt`. -/
theorem stmt_fast_path (B : sql.Backend) (Bx : sqlx.Backend) (ctx : Context) (q : String)
    (c : Cache) (h : sql.Stmt) (hc : GoMap.lookup c.stmts q = some h)
    (cx : Cachex) (hx : sqlx.Stmt) (hcx : GoMap.lookup cx.stmts q = some hx) :
    Cache.stmt B c ctx q = some (c, .ok h) ∧ Cachex.stmt Bx cx ctx q = some (cx, .ok hx) :=
  ⟨cache_stmt_hit B c ctx q h hc, cachex_stmt_hit Bx cx ctx q hx hcx⟩

/-- A hit on a cache that holds one handle, for each of the two caches. -/
theorem stmt_fast_path_witness :
    (GoMap.lookup (Cache.mk [] (some [("SELECT 1", ⟨7⟩)])).stmts "SELECT 1" = some ⟨7⟩ ∧
      GoMap.lookup (Cachex.mk [] (some [("SELECT 1", ⟨8⟩)])).stmts "SELECT 1"
        = some ⟨8⟩) ∧
    Cache.stmt sql.Backend.sample (Cache.mk [] (some [("SELECT 1", ⟨7⟩)]))
        Context.background "SELECT 1"
      = some (Cache.mk [] (some [("SELECT 1", ⟨7⟩)]), .ok ⟨7⟩) ∧
    Cachex.stmt sqlx.Backend.sample (Cachex.mk [] (some [("SELECT 1", ⟨8⟩)]))
        Context.background "SELECT 1"
      = some (Cachex.mk [] (some [("SELECT 1", ⟨8⟩)]), .ok ⟨8⟩) :=
  ⟨⟨by rfl, by rfl⟩,
    stmt_fast_path sql.Backend.sample sqlx.Backend.sample Context.background "SELECT 1"
      (Cache.mk [] (some [("SELECT 1", ⟨7⟩)])) ⟨7⟩ (by rfl)
      (Cachex.mk [] (some [("SELECT 1", ⟨8⟩)])) ⟨8⟩ (by rfl)⟩

/-! ## Operations on a miss -/

/-- On a miss every operation of `Cache` invokes compile once; when that compile
fails the map is left as it was. -/
theorem cache_run_miss (B : sql.Backend) (c : Cache) (q : String) (o : Cache.Op)
    (hq : o.query = q) (hc : GoMap.lookup c.stmts q = none) :
    ∃ c1, o.run B c = some c1 ∧ sql.prepares c1.DB q = sql.prepares c.DB q + 1 ∧
      ((∃ e, B.PrepareContext c.DB o.ctx q = .error e) → c1.stmts = c.stmts) := by
  subst hq
  cases hp : B.PrepareContext c.DB o.ctx o.query with
  | error e =>
    cases o <;> simp only [Cache.Op.query, Cache.Op.ctx] at hc hp <;>
      have hs := cache_stmt_miss_error B c _ _ e hc hp <;>
      simp [Cache.Op.run, Cache.Op.query, Cache.Op.ctx, Cache.Query, Cache.QueryRow,
        Cache.Exec, Cache.QueryContext, Cache.QueryRowContext, Cache.ExecContext, hs,
        sql_prepares_append, sql_prepares_cons, sql_prepares_nil, sql.Call.isPrepare]
  | ok h =>
    cases o <;> simp only [Cache.Op.query, Cache.Op.ctx] at hc hp <;>
      have hs := cache_stmt_miss_ok B c _ _ h hc hp <;>
      simp [Cache.Op.run, Cache.Op.query, Cache.Op.ctx, Cache.Query, Cache.QueryRow,
        Cache.Exec, Cache.QueryContext, Cache.QueryRowContext, Cache.ExecContext, hs,
        sql_prepares_append, sql_prepares_cons, sql_prepares_nil, sql.Call.isPrepare]

/-- On a miss every execute operation of `Cachex` invokes compile once; when that compile
fails the map is left as it was. -/
theorem cachex_run_miss (B : sqlx.Backend) (c : Cachex) (q : String) (o : Cachex.Op)
    (hq : o.query = q) (hx : o.isExecute = true) (hc : GoMap.lookup c.stmts q = none) :
    ∃ c1, o.run B c = some c1 ∧ sqlx.prepares c1.DB q = sqlx.prepares c.DB q + 1 ∧
      ((∃ e, B.PreparexContext c.DB o.ctx q = .error e) → c1.stmts = c.stmts) := by
  subst hq
  cases hp : B.PreparexContext c.DB o.ctx o.query with
  | error e =>
    cases o <;> simp only [Cachex.Op.query, Cachex.Op.ctx, Cachex.Op.isExecute] at hc hp hx <;>
      first
      | exact absurd hx (by decide)
      | (have hs := cachex_stmt_miss_error B c _ _ e hc hp
         simp [Cachex.Op.run, Cachex.Op.query, Cachex.Op.ctx, Cachex.Query, Cachex.Queryx,
          Cachex.QueryRow, Cachex.QueryxRow, Cachex.Exec, Cachex.QueryContext,
          Cachex.QueryxContext, Cachex.QueryRowContext, Cachex.QueryRowxContext,
          Cachex.ExecContext, hs, sqlx_prepares_append, sqlx_prepares_cons,
          sqlx_prepares_nil, sqlx.Call.isPrepare])
  | ok h =>
    cases o <;> simp only [Cachex.Op.query, Cachex.Op.ctx, Cachex.Op.isExecute] at hc hp hx <;>
      first
      | exact absurd hx (by decide)
      | (have hs := cachex_stmt_miss_ok B c _ _ h hc hp
         simp [Cachex.Op.run, Cachex.Op.query, Cachex.Op.ctx, Cachex.Query, Cachex.Queryx,
          Cachex.QueryRow, Cachex.QueryxRow, Cachex.Exec, Cachex.QueryContext,
          Cachex.QueryxContext, Cachex.QueryRowContext, Cachex.QueryRowxContext,
          Cachex.ExecContext, hs, sqlx_prepares_append, sqlx_prepares_cons,
          sqlx_prepares_nil, sqlx.Call.isPrepare])

/-! ## What resolve asks of the backend -/

/-- Resolve issues at most one backend call, the compile of exactly `ctx` and `q`, and
what it returns is the cached handle or that compile's answer. -/
theorem cache_stmt_calls (B : sql.Backend) (c : Cache) (ctx : Context) (q : String) :
    ∃ c1 r, Cache.stmt B c ctx q = some (c1, r) ∧
      ((c1.DB = c.DB ∧ ∃ h, GoMap.lookup c.stmts q = some h ∧ r = .ok h) ∨
        (c1.DB = c.DB ++ [sql.Call.PrepareContext ctx q] ∧
          r = B.PrepareContext c.DB ctx q)) := by
  rw [cache_stmt_eq]
  cases hl : GoMap.lookup c.stmts q with
  | some h => exact ⟨c, .ok h, rfl, Or.inl ⟨rfl, h, rfl, rfl⟩⟩
  | none =>
    cases hp : B.PrepareContext c.DB ctx q with
    | error e => exact ⟨_, _, rfl, Or.inr ⟨rfl, rfl⟩⟩
    | ok h => exact ⟨_, _, rfl, Or.inr ⟨rfl, rfl⟩⟩

/-- Resolve issues at most one backend call, the compile of exactly `ctx` and `q`, and
what it returns is the cached handle or that compile's answer. -/
theorem cachex_stmt_calls (B : sqlx.Backend) (c : Cachex) (ctx : Context) (q : String) :
    ∃ c1 r, Cachex.stmt B c ctx q = some (c1, r) ∧
      ((c1.DB = c.DB ∧ ∃ h, GoMap.lookup c.stmts q = some h ∧ r = .ok h) ∨
        (c1.DB = c.DB ++ [sqlx.Call.PreparexContext ctx q] ∧
          r = B.PreparexContext c.DB ctx q)) := by
  rw [cachex_stmt_eq]
  cases hl : GoMap.lookup c.stmts q with
  | some h => exact ⟨c, .ok h, rfl, Or.inl ⟨rfl, h, rfl, rfl⟩⟩
  | none =>
    cases hp : B.PreparexContext c.DB ctx q with
    | error e => exact ⟨_, _, rfl, Or.inr ⟨rfl, rfl⟩⟩
    | ok h => exact ⟨_, _, rfl, Or.inr ⟨rfl, rfl⟩⟩

/-! ## Operations never fault and never disturb an entry -/

/-- Resolve keeps every entry of the map and does not compile a text that has an entry. -/
theorem cache_stmt_preserves (B : sql.Backend) (c : Cache) (ctx : Context) (q k : String)
    (v : sql.Stmt) (hk : GoMap.lookup c.stmts k = some v) :
    ∃ c1 r, Cache.stmt B c ctx q = some (c1, r) ∧ GoMap.lookup c1.stmts k = some v ∧
      sql.prepares c1.DB k = sql.prepares c.DB k := by
  rw [cache_stmt_eq]
  cases hl : GoMap.lookup c.stmts q with
  | some h => exact ⟨c, .ok h, rfl, hk, rfl⟩
  | none =>
    have hne : k ≠ q := by
      intro hkq
      rw [hkq, hl] at hk
      cases hk
    have hnp : (q == k) = false := by simpa using Ne.symm hne
    cases hp : B.PrepareContext c.DB ctx q with
    | error e =>
      exact ⟨_, _, rfl, hk, by simp [sql_prepares_append, sql_prepares_cons,
        sql_prepares_nil, sql.Call.isPrepare, hnp]⟩
    | ok h =>
      refine ⟨_, _, rfl, ?_, by simp [sql_prepares_append, sql_prepares_cons,
        sql_prepares_nil, sql.Call.isPrepare, hnp]⟩
      obtain ⟨db, m⟩ := c
      cases m with
      | none => simp [GoMap.lookup] at hk
      | some es =>
        simp only [GoMap.lookup, Option.getD_some] at hk ⊢
        rw [find_put_other es q k h hne]
        exact hk

/-- Resolve keeps every entry of the map and does not compile a text that has an entry. -/
theorem cachex_stmt_preserves (B : sqlx.Backend) (c : Cachex) (ctx : Context) (q k : String)
    (v : sqlx.Stmt) (hk : GoMap.lookup c.stmts k = some v) :
    ∃ c1 r, Cachex.stmt B c ctx q = some (c1, r) ∧ GoMap.lookup c1.stmts k = some v ∧
      sqlx.prepares c1.DB k = sqlx.prepares c.DB k := by
  rw [cachex_stmt_eq]
  cases hl : GoMap.lookup c.stmts q with
  | some h => exact ⟨c, .ok h, rfl, hk, rfl⟩
  | none =>
    have hne : k ≠ q := by
      intro hkq
      rw [hkq, hl] at hk
      cases hk
    have hnp : (q == k) = false := by simpa using Ne.symm hne
    cases hp : B.PreparexContext c.DB ctx q with
    | error e =>
      exact ⟨_, _, rfl, hk, by simp [sqlx_prepares_append, sqlx_prepares_cons,
        sqlx_prepares_nil, sqlx.Call.isPrepare, hnp]⟩
    | ok h =>
      refine ⟨_, _, rfl, ?_, by simp [sqlx_prepares_append, sqlx_prepares_cons,
        sqlx_prepares_nil, sqlx.Call.isPrepare, hnp]⟩
      obtain ⟨db, m⟩ := c
      cases m with
      | none => simp [GoMap.lookup] at hk
      | some es =>
        simp only [GoMap.lookup, Option.getD_some] at hk ⊢
        rw [find_put_other es q k h hne]
        exact hk

/-- Every operation of `Cache` keeps every entry and compiles no text that has one. -/
theorem cache_run_preserves (B : sql.Backend) (c : Cache) (o : Cache.Op) (k : String)
    (v : sql.Stmt) (hk : GoMap.lookup c.stmts k = some v) :
    ∃ c1, o.run B c = some c1 ∧ GoMap.lookup c1.stmts k = some v ∧
      sql.prepares c1.DB k = sql.prepares c.DB k := by
  obtain ⟨c1, r, hs, hl, hn⟩ := cache_stmt_preserves B c o.ctx o.query k v hk
  cases r <;> cases o <;>
    simp_all [Cache.Op.run, Cache.Op.query, Cache.Op.ctx, Cache.Query, Cache.QueryRow,
      Cache.Exec, Cache.QueryContext, Cache.QueryRowContext, Cache.ExecContext,
      sql_prepares_append, sql_prepares_cons, sql_prepares_nil, sql.Call.isPrepare]

/-- A decode into a collection leaves the cache as the query it runs leaves it. -/
theorem cachex_SelectContext_state (B : sqlx.Backend) (c : Cachex) (ctx : Context)
    (dest : sqlx.Dest) (q : String) (args : List Arg) :
    (Cachex.SelectContext B c ctx dest q args).map Prod.fst
      = (Cachex.QueryxContext B c ctx q args).map Prod.fst := by
  simp only [Cachex.SelectContext, sqlx.SelectContext, Cachex.asQueryerContext]
  rcases Cachex.QueryxContext B c ctx q args with _ | ⟨s, _ | _⟩ <;> rfl

/-- A decode into a collection leaves the cache as the query it runs leaves it. -/
theorem cachex_Select_state (B : sqlx.Backend) (c : Cachex) (dest : sqlx.Dest) (q : String)
    (args : List Arg) :
    (Cachex.Select B c dest q args).map Prod.fst
      = (Cachex.Queryx B c q args).map Prod.fst := by
  simp only [Cachex.Select, sqlx.Select, Cachex.asQueryer]
  rcases Cachex.Queryx B c q args with _ | ⟨s, _ | _⟩ <;> rfl

/-- A decode into a single value leaves the cache as the query it runs leaves it. -/
theorem cachex_GetContext_state (B : sqlx.Backend) (c : Cachex) (ctx : Context)
    (dest : sqlx.Dest) (q : String) (args : List Arg) :
    (Cachex.GetContext B c ctx dest q args).map Prod.fst
      = (Cachex.QueryRowxContext B c ctx q args).map Prod.fst := by
  simp only [Cachex.GetContext, sqlx.GetContext, Cachex.asQueryerContext]
  rcases Cachex.QueryRowxContext B c ctx q args with _ | ⟨s, _⟩ <;> rfl

/-- The convenience decode into a single value only issues the direct `QueryRowx` call. -/
theorem cachex_Get_state (B : sqlx.Backend) (c : Cachex) (dest : sqlx.Dest) (q : String)
    (args : List Arg) :
    (Cachex.Get B c dest q args).map Prod.fst
      = some { c with DB := c.DB ++ [sqlx.Call.QueryRowx q args] } := rfl

/-- Every operation of `Cachex` keeps every entry and compiles no text that has one. -/
theorem cachex_run_preserves (B : sqlx.Backend) (c : Cachex) (o : Cachex.Op) (k : String)
    (v : sqlx.Stmt) (hk : GoMap.lookup c.stmts k = some v) :
    ∃ c1, o.run B c = some c1 ∧ GoMap.lookup c1.stmts k = some v ∧
      sqlx.prepares c1.DB k = sqlx.prepares c.DB k := by
  obtain ⟨c1, r, hs, hl, hn⟩ := cachex_stmt_preserves B c o.ctx o.query k v hk
  cases r <;> cases o <;>
    simp_all [Cachex.Op.run, Cachex.Op.query, Cachex.Op.ctx, Cachex.Query, Cachex.Queryx,
      Cachex.QueryRow, Cachex.QueryxRow, Cachex.Exec, Cachex.QueryContext,
      Cachex.QueryxContext, Cachex.QueryRowContext, Cachex.QueryRowxContext,
      Cachex.ExecContext, cachex_Select_state, cachex_SelectContext_state,
      cachex_Get_state, cachex_GetContext_state,
      sqlx_prepares_append, sqlx_prepares_cons, sqlx_prepares_nil, sqlx.Call.isPrepare]

/-- No operation of `Cachex` faults. -/
theorem cachex_run_isSome (B : sqlx.Backend) (c : Cachex) (o : Cachex.Op) :
    (o.run B c).isSome = true := by
  obtain ⟨c1, r, hs, -⟩ := cachex_stmt_calls B c o.ctx o.query
  cases r <;> cases o <;>
    simp_all [Cachex.Op.run, Cachex.Op.query, Cachex.Op.ctx, Cachex.Query, Cachex.Queryx,
      Cachex.QueryRow, Cachex.QueryxRow, Cachex.Exec, Cachex.QueryContext,
      Cachex.QueryxContext, Cachex.QueryRowContext, Cachex.QueryRowxContext,
      Cachex.ExecContext, cachex_Select_state, cachex_SelectContext_state,
      cachex_Get_state, cachex_GetContext_state]

/-! ## A failed compile is not cached -/

/-- C3: with no entry for `q` and a compile of `q` that fails with `e`, resolve returns `e`
and leaves the map as it was (the only change is the compile call in the history); and any
two execute operations on `q` in succession, the first of them meeting that failing compile,
invoke compile for `q` exactly twice, the map being unchanged in between. Both `Cache`
(where it holds of the bare resolve as well) and `Cachex`. -/
theorem failed_compile_not_cached (B : sql.Backend) (Bx : sqlx.Backend) (ctx : Context)
    (q : String) (e ex : Error)
    (c : Cache) (hc : GoMap.lookup c.stmts q = none)
    (hp : B.PrepareContext c.DB ctx q = .error e)
    (o1 o2 : Cache.Op) (h1q : o1.query = q) (h1c : o1.ctx = ctx) (h2q : o2.query = q)
    (cx : Cachex) (hcx : GoMap.lookup cx.stmts q = none)
    (hpx : Bx.PreparexContext cx.DB ctx q = .error ex)
    (x1 x2 : Cachex.Op) (k1 : x1.isExecute = true) (k1q : x1.query = q) (k1c : x1.ctx = ctx)
    (k2 : x2.isExecute = true) (k2q : x2.query = q) :
    (Cache.stmt B c ctx q
        = some ({ c with DB := c.DB ++ [sql.Call.PrepareContext ctx q] }, .error e) ∧
      ∃ c1 c2, o1.run B c = some c1 ∧ c1.stmts = c.stmts ∧ o2.run B c1 = some c2 ∧
        sql.prepares c2.DB q = sql.prepares c.DB q + 2) ∧
    (Cachex.stmt Bx cx ctx q
        = some ({ cx with DB := cx.DB ++ [sqlx.Call.PreparexContext ctx q] }, .error ex) ∧
      ∃ c1 c2, x1.run Bx cx = some c1 ∧ c1.stmts = cx.stmts ∧ x2.run Bx c1 = some c2 ∧
        sqlx.prepares c2.DB q = sqlx.prepares cx.DB q + 2) := by
  refine ⟨⟨cache_stmt_miss_error B c ctx q e hc hp, ?_⟩,
    ⟨cachex_stmt_miss_error Bx cx ctx q ex hcx hpx, ?_⟩⟩
  · obtain ⟨c1, hr1, hn1, hm1⟩ := cache_run_miss B c q o1 h1q hc
    have hm : c1.stmts = c.stmts := hm1 ⟨e, by rw [h1c]; exact hp⟩
    obtain ⟨c2, hr2, hn2, _⟩ := cache_run_miss B c1 q o2 h2q (by rw [hm]; exact hc)
    exact ⟨c1, c2, hr1, hm, hr2, by omega⟩
  · obtain ⟨c1, hr1, hn1, hm1⟩ := cachex_run_miss Bx cx q x1 k1q k1 hcx
    have hm : c1.stmts = cx.stmts := hm1 ⟨ex, by rw [k1c]; exact hpx⟩
    obtain ⟨c2, hr2, hn2, _⟩ := cachex_run_miss Bx c1 q x2 k2q k2 (by rw [hm]; exact hcx)
    exact ⟨c1, c2, hr1, hm, hr2, by omega⟩

/-- The text `SELEKT 1` on fresh caches over the example backends: a modify and then a
query. -/
theorem failed_compile_not_cached_witness :
    (Cache.stmt sql.Backend.sample (Cache.mk [] none) Context.background "SELEKT 1"
        = some ({ (Cache.mk [] none) with
            DB := (Cache.mk [] none).DB
              ++ [sql.Call.PrepareContext Context.background "SELEKT 1"] },
          .error ⟨"syntax error"⟩) ∧
      ∃ c1 c2, (Cache.Op.Exec "SELEKT 1" [Arg.int 1]).run sql.Backend.sample (Cache.mk [] none)
          = some c1 ∧ c1.stmts = (Cache.mk [] none).stmts ∧
        (Cache.Op.Query "SELEKT 1" []).run sql.Backend.sample c1 = some c2 ∧
        sql.prepares c2.DB "SELEKT 1" = sql.prepares (Cache.mk [] none).DB "SELEKT 1" + 2) ∧
    (Cachex.stmt sqlx.Backend.sample (Cachex.mk [] none) Context.background "SELEKT 1"
        = some ({ (Cachex.mk [] none) with
            DB := (Cachex.mk [] none).DB
              ++ [sqlx.Call.PreparexContext Context.background "SELEKT 1"] },
          .error ⟨"syntax error"⟩) ∧
      ∃ c1 c2, (Cachex.Op.Exec "SELEKT 1" [Arg.int 1]).run sqlx.Backend.sample
          (Cachex.mk [] none) = some c1 ∧ c1.stmts = (Cachex.mk [] none).stmts ∧
        (Cachex.Op.QueryxRow "SELEKT 1" []).run sqlx.Backend.sample c1 = some c2 ∧
        sqlx.prepares c2.DB "SELEKT 1"
          = sqlx.prepares (Cachex.mk [] none).DB "SELEKT 1" + 2) :=
  failed_compile_not_cached sql.Backend.sample sqlx.Backend.sample Context.background
    "SELEKT 1" ⟨"syntax error"⟩ ⟨"syntax error"⟩
    (Cache.mk [] none) (by rfl) (by rfl)
    (Cache.Op.Exec "SELEKT 1" [Arg.int 1]) (Cache.Op.Query "SELEKT 1" []) (by rfl) (by rfl)
    (by rfl)
    (Cachex.mk [] none) (by rfl) (by rfl)
    (Cachex.Op.Exec "SELEKT 1" [Arg.int 1]) (Cachex.Op.QueryxRow "SELEKT 1" []) (by rfl)
    (by rfl) (by rfl) (by rfl) (by rfl)

/-! ## Resolution failure in the execute operations -/

/-- C5: when resolving `q` fails with `e`, each error-returning operation
(`Cache.QueryContext`, `Cache.ExecContext`, `Cachex.QueryxContext`, `Cachex.QueryContext`,
`Cachex.ExecContext`) returns the error `e` unchanged with no result, and ends in the very
state resolve left: the history holds the compile call and no execution call after it. -/
theorem resolve_error_propagates (B : sql.Backend) (Bx : sqlx.Backend) (ctx : Context)
    (q : String) (args : List Arg) (e ex : Error)
    (c c1 : Cache) (hr : Cache.stmt B c ctx q = some (c1, .error e))
    (cx cx1 : Cachex) (hrx : Cachex.stmt Bx cx ctx q = some (cx1, .error ex)) :
    (Cache.QueryContext B c ctx q args = some (c1, .error e) ∧
      Cache.ExecContext B c ctx q args = some (c1, .error e) ∧
      c1.DB = c.DB ++ [sql.Call.PrepareContext ctx q]) ∧
    (Cachex.QueryxContext Bx cx ctx q args = some (cx1, .error ex) ∧
      Cachex.QueryContext Bx cx ctx q args = some (cx1, .error ex) ∧
      Cachex.ExecContext Bx cx ctx q args = some (cx1, .error ex) ∧
      cx1.DB = cx.DB ++ [sqlx.Call.PreparexContext ctx q]) := by
  refine ⟨⟨by simp [Cache.QueryContext, hr], by simp [Cache.ExecContext, hr], ?_⟩,
    ⟨by simp [Cachex.QueryxContext, hrx], by simp [Cachex.QueryContext, hrx],
      by simp [Cachex.ExecContext, hrx], ?_⟩⟩
  · rw [cache_stmt_eq] at hr
    cases hl : GoMap.lookup c.stmts q with
    | some h => simp [hl] at hr
    | none =>
      cases hp : B.PrepareContext c.DB ctx q with
      | error e1 =>
        simp [hl, hp] at hr
        rw [← hr.1]
      | ok h => simp [hl, hp] at hr
  · rw [cachex_stmt_eq] at hrx
    cases hl : GoMap.lookup cx.stmts q with
    | some h => simp [hl] at hrx
    | none =>
      cases hp : Bx.PreparexContext cx.DB ctx q with
      | error e1 =>
        simp [hl, hp] at hrx
        rw [← hrx.1]
      | ok h => simp [hl, hp] at hrx

/-- The text `SELEKT 1` on fresh caches over the example backends. -/
theorem resolve_error_propagates_witness :
    (Cache.QueryContext sql.Backend.sample (Cache.mk [] none) Context.background "SELEKT 1"
        [Arg.int 1]
        = some (Cache.mk [sql.Call.PrepareContext Context.background "SELEKT 1"] none,
            .error ⟨"syntax error"⟩) ∧
      Cache.ExecContext sql.Backend.sample (Cache.mk [] none) Context.background "SELEKT 1"
        [Arg.int 1]
        = some (Cache.mk [sql.Call.PrepareContext Context.background "SELEKT 1"] none,
            .error ⟨"syntax error"⟩) ∧
      (Cache.mk [sql.Call.PrepareContext Context.background "SELEKT 1"] none).DB
        = (Cache.mk [] none).DB ++ [sql.Call.PrepareContext Context.background "SELEKT 1"]) ∧
    (Cachex.QueryxContext sqlx.Backend.sample (Cachex.mk [] none) Context.background
        "SELEKT 1" [Arg.int 1]
        = some (Cachex.mk [sqlx.Call.PreparexContext Context.background "SELEKT 1"] none,
            .error ⟨"syntax error"⟩) ∧
      Cachex.QueryContext sqlx.Backend.sample (Cachex.mk [] none) Context.background
        "SELEKT 1" [Arg.int 1]
        = some (Cachex.mk [sqlx.Call.PreparexContext Context.background "SELEKT 1"] none,
            .error ⟨"syntax error"⟩) ∧
      Cachex.ExecContext sqlx.Backend.sample (Cachex.mk [] none) Context.background
        "SELEKT 1" [Arg.int 1]
        = some (Cachex.mk [sqlx.Call.PreparexContext Context.background "SELEKT 1"] none,
            .error ⟨"syntax error"⟩) ∧
      (Cachex.mk [sqlx.Call.PreparexContext Context.background "SELEKT 1"] none).DB
        = (Cachex.mk [] none).DB
          ++ [sqlx.Call.PreparexContext Context.background "SELEKT 1"]) :=
  resolve_error_propagates sql.Backend.sample sqlx.Backend.sample Context.background
    "SELEKT 1" [Arg.int 1] ⟨"syntax error"⟩ ⟨"syntax error"⟩
    (Cache.mk [] none) (Cache.mk [sql.Call.PrepareContext Context.background "SELEKT 1"] none)
    (by rfl)
    (Cachex.mk [] none)
    (Cachex.mk [sqlx.Call.PreparexContext Context.background "SELEKT 1"] none) (by rfl)

/-- C6: when resolving `q` fails, each single-row operation (`Cache.QueryRowContext`,
`Cachex.QueryRowContext`, `Cachex.QueryRowxContext`) returns exactly the row the backend's
direct single-row execution gives for the same context, text and arguments; the call
reports no error of its own (it returns a row and does not fault) and the map is as it was
before the call. -/
theorem single_row_fallback (B : sql.Backend) (Bx : sqlx.Backend) (ctx : Context)
    (q : String) (args : List Arg) (e ex : Error)
    (c c1 : Cache) (hr : Cache.stmt B c ctx q = some (c1, .error e))
    (cx cx1 : Cachex) (hrx : Cachex.stmt Bx cx ctx q = some (cx1, .error ex)) :
    (Cache.QueryRowContext B c ctx q args
        = some ({ c1 with DB := c1.DB ++ [sql.Call.QueryRowContext ctx q args] },
            B.QueryRowContext c1.DB ctx q args) ∧
      c1.stmts = c.stmts) ∧
    (Cachex.QueryRowContext Bx cx ctx q args
        = some ({ cx1 with DB := cx1.DB ++ [sqlx.Call.QueryRowContext ctx q args] },
            Bx.QueryRowContext cx1.DB ctx q args) ∧
      Cachex.QueryRowxContext Bx cx ctx q args
        = some ({ cx1 with DB := cx1.DB ++ [sqlx.Call.QueryRowxContext ctx q args] },
            Bx.QueryRowxContext cx1.DB ctx q args) ∧
      cx1.stmts = cx.stmts) := by
  refine ⟨⟨by simp [Cache.QueryRowContext, hr], ?_⟩,
    ⟨by simp [Cachex.QueryRowContext, hrx], by simp [Cachex.QueryRowxContext, hrx], ?_⟩⟩
  · rw [cache_stmt_eq] at hr
    cases hl : GoMap.lookup c.stmts q with
    | some h => simp [hl] at hr
    | none =>
      cases hp : B.PrepareContext c.DB ctx q with
      | error e1 =>
        simp [hl, hp] at hr
        rw [← hr.1]
      | ok h => simp [hl, hp] at hr
  · rw [cachex_stmt_eq] at hrx
    cases hl : GoMap.lookup cx.stmts q with
    | some h => simp [hl] at hrx
    | none =>
      cases hp : Bx.PreparexContext cx.DB ctx q with
      | error e1 =>
        simp [hl, hp] at hrx
        rw [← hrx.1]
      | ok h => simp [hl, hp] at hrx

/-- A single-row query of the text `SELEKT 1` on fresh caches over the example backends. -/
theorem single_row_fallback_witness :
    (Cache.QueryRowContext sql.Backend.sample (Cache.mk [] none) Context.background
        "SELEKT 1" []
        = some ({ (Cache.mk [sql.Call.PrepareContext Context.background "SELEKT 1"] none) with
              DB := (Cache.mk [sql.Call.PrepareContext Context.background "SELEKT 1"] none).DB
                ++ [sql.Call.QueryRowContext Context.background "SELEKT 1" []] },
            sql.Backend.sample.QueryRowContext
              (Cache.mk [sql.Call.PrepareContext Context.background "SELEKT 1"] none).DB
              Context.background "SELEKT 1" []) ∧
      (Cache.mk [sql.Call.PrepareContext Context.background "SELEKT 1"] none).stmts
        = (Cache.mk [] none).stmts) ∧
    (Cachex.QueryRowContext sqlx.Backend.sample (Cachex.mk [] none) Context.background
        "SELEKT 1" []
        = some ({ (Cachex.mk [sqlx.Call.PreparexContext Context.background "SELEKT 1"] none)
              with
              DB := (Cachex.mk [sqlx.Call.PreparexContext Context.background "SELEKT 1"]
                  none).DB
                ++ [sqlx.Call.QueryRowContext Context.background "SELEKT 1" []] },
            sqlx.Backend.sample.QueryRowContext
              (Cachex.mk [sqlx.Call.PreparexContext Context.background "SELEKT 1"] none).DB
              Context.background "SELEKT 1" []) ∧
      Cachex.QueryRowxContext sqlx.Backend.sample (Cachex.mk [] none) Context.background
        "SELEKT 1" []
        = some ({ (Cachex.mk [sqlx.Call.PreparexContext Context.background "SELEKT 1"] none)
              with
              DB := (Cachex.mk [sqlx.Call.PreparexContext Context.background "SELEKT 1"]
                  none).DB
                ++ [sqlx.Call.QueryRowxContext Context.background "SELEKT 1" []] },
            sqlx.Backend.sample.QueryRowxContext
              (Cachex.mk [sqlx.Call.PreparexContext Context.background "SELEKT 1"] none).DB
              Context.background "SELEKT 1" []) ∧
      (Cachex.mk [sqlx.Call.PreparexContext Context.background "SELEKT 1"] none).stmts
        = (Cachex.mk [] none).stmts) :=
  single_row_fallback sql.Backend.sample sqlx.Backend.sample Context.background
    "SELEKT 1" [] ⟨"syntax error"⟩ ⟨"syntax error"⟩
    (Cache.mk [] none) (Cache.mk [sql.Call.PrepareContext Context.background "SELEKT 1"] none)
    (by rfl)
    (Cachex.mk [] none)
    (Cachex.mk [sqlx.Call.PreparexContext Context.background "SELEKT 1"] none) (by rfl)

/-! ## Pass-through -/

/-- C7: for every execute operation called with `ctx`, `q` and `args`: in any cache `d`
the only backend call resolve can issue is the compile of exactly `ctx` and `q`, whose
answer it returns; and when resolve succeeds with handle `h`, leaving the cache `c1`, the
operation issues exactly one more call, the matching execute of `h` with `ctx` and the same
`args` in the same order, and returns the backend's answer to it as is. -/
theorem pass_through (B : sql.Backend) (Bx : sqlx.Backend) (ctx : Context) (q : String)
    (args : List Arg) (d : Cache) (dx : Cachex)
    (c c1 : Cache) (h : sql.Stmt) (hr : Cache.stmt B c ctx q = some (c1, .ok h))
    (cx cx1 : Cachex) (hx : sqlx.Stmt) (hrx : Cachex.stmt Bx cx ctx q = some (cx1, .ok hx)) :
    ((∃ d1 r, Cache.stmt B d ctx q = some (d1, r) ∧
        ((d1.DB = d.DB ∧ ∃ h, GoMap.lookup d.stmts q = some h ∧ r = .ok h) ∨
          (d1.DB = d.DB ++ [sql.Call.PrepareContext ctx q] ∧
            r = B.PrepareContext d.DB ctx q))) ∧
      Cache.QueryContext B c ctx q args
        = some ({ c1 with DB := c1.DB ++ [sql.Call.StmtQueryContext h ctx args] },
            B.StmtQueryContext c1.DB h ctx args) ∧
      Cache.QueryRowContext B c ctx q args
        = some ({ c1 with DB := c1.DB ++ [sql.Call.StmtQueryRowContext h ctx args] },
            B.StmtQueryRowContext c1.DB h ctx args) ∧
      Cache.ExecContext B c ctx q args
        = some ({ c1 with DB := c1.DB ++ [sql.Call.StmtExecContext h ctx args] },
            B.StmtExecContext c1.DB h ctx args)) ∧
    ((∃ d1 r, Cachex.stmt Bx dx ctx q = some (d1, r) ∧
        ((d1.DB = dx.DB ∧ ∃ h, GoMap.lookup dx.stmts q = some h ∧ r = .ok h) ∨
          (d1.DB = dx.DB ++ [sqlx.Call.PreparexContext ctx q] ∧
            r = Bx.PreparexContext dx.DB ctx q))) ∧
      Cachex.QueryxContext Bx cx ctx q args
        = some ({ cx1 with DB := cx1.DB ++ [sqlx.Call.StmtQueryxContext hx ctx args] },
            Bx.StmtQueryxContext cx1.DB hx ctx args) ∧
      Cachex.QueryContext Bx cx ctx q args
        = some ({ cx1 with DB := cx1.DB ++ [sqlx.Call.StmtQueryContext hx ctx args] },
            Bx.StmtQueryContext cx1.DB hx ctx args) ∧
      Cachex.QueryRowxContext Bx cx ctx q args
        = some ({ cx1 with DB := cx1.DB ++ [sqlx.Call.StmtQueryRowxContext hx ctx args] },
            Bx.StmtQueryRowxContext cx1.DB hx ctx args) ∧
      Cachex.QueryRowContext Bx cx ctx q args
        = some ({ cx1 with DB := cx1.DB ++ [sqlx.Call.StmtQueryRowContext hx ctx args] },
            Bx.StmtQueryRowContext cx1.DB hx ctx args) ∧
      Cachex.ExecContext Bx cx ctx q args
        = some ({ cx1 with DB := cx1.DB ++ [sqlx.Call.StmtExecContext hx ctx args] },
            Bx.StmtExecContext cx1.DB hx ctx args)) := by
  exact ⟨⟨cache_stmt_calls B d ctx q, by simp [Cache.QueryContext, hr],
      by simp [Cache.QueryRowContext, hr], by simp [Cache.ExecContext, hr]⟩,
    ⟨cachex_stmt_calls Bx dx ctx q, by simp [Cachex.QueryxContext, hrx],
      by simp [Cachex.QueryContext, hrx], by simp [Cachex.QueryRowxContext, hrx],
      by simp [Cachex.QueryRowContext, hrx], by simp [Cachex.ExecContext, hrx]⟩⟩

/-- A query with three arguments under a derived context on fresh caches over the example
backends: the context and the arguments reach the backend as they were given. -/
theorem pass_through_witness :
    Cache.stmt sql.Backend.sample (Cache.mk [] none) (Context.derived 3) "SELECT ?"
      = some (Cache.mk [sql.Call.PrepareContext (Context.derived 3) "SELECT ?"]
          (some [("SELECT ?", ⟨0⟩)]), .ok ⟨0⟩) ∧
    Cache.QueryContext sql.Backend.sample (Cache.mk [] none) (Context.derived 3) "SELECT ?"
        [Arg.int 2, Arg.str "a", Arg.int 1]
      = some (Cache.mk [sql.Call.PrepareContext (Context.derived 3) "SELECT ?",
            sql.Call.StmtQueryContext ⟨0⟩ (Context.derived 3)
              [Arg.int 2, Arg.str "a", Arg.int 1]]
          (some [("SELECT ?", ⟨0⟩)]), .ok ⟨1⟩) ∧
    Cachex.stmt sqlx.Backend.sample (Cachex.mk [] none) (Context.derived 3) "SELECT ?"
      = some (Cachex.mk [sqlx.Call.PreparexContext (Context.derived 3) "SELECT ?"]
          (some [("SELECT ?", ⟨0⟩)]), .ok ⟨0⟩) ∧
    Cachex.QueryxContext sqlx.Backend.sample (Cachex.mk [] none) (Context.derived 3)
        "SELECT ?" [Arg.int 2, Arg.str "a", Arg.int 1]
      = some (Cachex.mk [sqlx.Call.PreparexContext (Context.derived 3) "SELECT ?",
            sqlx.Call.StmtQueryxContext ⟨0⟩ (Context.derived 3)
              [Arg.int 2, Arg.str "a", Arg.int 1]]
          (some [("SELECT ?", ⟨0⟩)]), .ok ⟨1⟩) :=
  have hr : Cache.stmt sql.Backend.sample (Cache.mk [] none) (Context.derived 3) "SELECT ?"
      = some (Cache.mk [sql.Call.PrepareContext (Context.derived 3) "SELECT ?"]
          (some [("SELECT ?", ⟨0⟩)]), .ok ⟨0⟩) := by rfl
  have hrx : Cachex.stmt sqlx.Backend.sample (Cachex.mk [] none) (Context.derived 3)
      "SELECT ?"
      = some (Cachex.mk [sqlx.Call.PreparexContext (Context.derived 3) "SELECT ?"]
          (some [("SELECT ?", ⟨0⟩)]), .ok ⟨0⟩) := by rfl
  have key := pass_through sql.Backend.sample sqlx.Backend.sample (Context.derived 3)
    "SELECT ?" [Arg.int 2, Arg.str "a", Arg.int 1] (Cache.mk [] none) (Cachex.mk [] none)
    (Cache.mk [] none) _ ⟨0⟩ hr (Cachex.mk [] none) _ ⟨0⟩ hrx
  ⟨hr, key.1.2.1, hrx, key.2.2.1⟩

/-! ## Close -/

/-- C8: in every state of the cache (populated, empty, or closed before) and whatever the
backend's close answers, after `Close` the map is nil, so it has no entries and no key is
found in it, and `Close` returns exactly what the backend's close returned. Both `Cache`
and `Cachex`. -/
theorem close_clears (B : sql.Backend) (Bx : sqlx.Backend) (c : Cache) (cx : Cachex) :
    ((Cache.Close B c).1.stmts = none ∧ GoMap.len (Cache.Close B c).1.stmts = 0 ∧
      (∀ q, GoMap.lookup (Cache.Close B c).1.stmts q = none) ∧
      (Cache.Close B c).2 = B.Close c.DB ∧
      (Cache.Close B c).1.DB = c.DB ++ [sql.Call.Close]) ∧
    ((Cachex.Close Bx cx).1.stmts = none ∧ GoMap.len (Cachex.Close Bx cx).1.stmts = 0 ∧
      (∀ q, GoMap.lookup (Cachex.Close Bx cx).1.stmts q = none) ∧
      (Cachex.Close Bx cx).2 = Bx.Close cx.DB ∧
      (Cachex.Close Bx cx).1.DB = cx.DB ++ [sqlx.Call.Close]) :=
  ⟨⟨rfl, rfl, fun _ => rfl, rfl, rfl⟩, ⟨rfl, rfl, fun _ => rfl, rfl, rfl⟩⟩

/-! ## The nil map -/

/-- C10: on a cache whose map is nil (as `NewCache`, `NewCachex` and `Close` leave it)
resolve does not fault: it finds no entry, invokes compile once with `ctx` and `q` and
returns its answer; every operation `o` returns without a fault, and every execute
operation has invoked compile for its text once; when compile fails with `e` that error is
what the query and modify operations return, the map staying nil; and when compile succeeds
with `h` the map afterwards is a new map holding the single entry `q -> h`. Both `Cache`
and `Cachex`. -/
theorem nil_map_safe (B : sql.Backend) (Bx : sqlx.Backend) (ctx : Context) (q : String)
    (args : List Arg) (c : Cache) (hnil : c.stmts = none) (o : Cache.Op)
    (cx : Cachex) (hnilx : cx.stmts = none) (ox : Cachex.Op) :
    ((∀ db, ∃ c0, NewCache db none = .ok c0 ∧ c0.stmts = none) ∧
      (∀ c0, (Cache.Close B c0).1.stmts = none) ∧
      (∃ c1, Cache.stmt B c ctx q = some (c1, B.PrepareContext c.DB ctx q) ∧
        c1.DB = c.DB ++ [sql.Call.PrepareContext ctx q]) ∧
      (∃ c1, o.run B c = some c1 ∧
        sql.prepares c1.DB o.query = sql.prepares c.DB o.query + 1) ∧
      (∀ e, B.PrepareContext c.DB ctx q = .error e →
        Cache.ExecContext B c ctx q args
          = some ({ DB := c.DB ++ [sql.Call.PrepareContext ctx q], stmts := none },
              .error e) ∧
        Cache.QueryContext B c ctx q args
          = some ({ DB := c.DB ++ [sql.Call.PrepareContext ctx q], stmts := none },
              .error e)) ∧
      (∀ h, B.PrepareContext c.DB ctx q = .ok h →
        Cache.stmt B c ctx q
          = some ({ DB := c.DB ++ [sql.Call.PrepareContext ctx q],
                    stmts := some [(q, h)] }, .ok h))) ∧
    ((∀ db, ∃ c0, NewCachex db none = .ok c0 ∧ c0.stmts = none) ∧
      (∀ c0, (Cachex.Close Bx c0).1.stmts = none) ∧
      (∃ c1, Cachex.stmt Bx cx ctx q = some (c1, Bx.PreparexContext cx.DB ctx q) ∧
        c1.DB = cx.DB ++ [sqlx.Call.PreparexContext ctx q]) ∧
      (∃ c1, ox.run Bx cx = some c1 ∧
        (ox.isExecute = true →
          sqlx.prepares c1.DB ox.query = sqlx.prepares cx.DB ox.query + 1)) ∧
      (∀ e, Bx.PreparexContext cx.DB ctx q = .error e →
        Cachex.ExecContext Bx cx ctx q args
          = some ({ DB := cx.DB ++ [sqlx.Call.PreparexContext ctx q], stmts := none },
              .error e) ∧
        Cachex.QueryContext Bx cx ctx q args
          = some ({ DB := cx.DB ++ [sqlx.Call.PreparexContext ctx q], stmts := none },
              .error e) ∧
        Cachex.QueryxContext Bx cx ctx q args
          = some ({ DB := cx.DB ++ [sqlx.Call.PreparexContext ctx q], stmts := none },
              .error e)) ∧
      (∀ h, Bx.PreparexContext cx.DB ctx q = .ok h →
        Cachex.stmt Bx cx ctx q
          = some ({ DB := cx.DB ++ [sqlx.Call.PreparexContext ctx q],
                    stmts := some [(q, h)] }, .ok h))) := by
  obtain ⟨db, m⟩ := c
  obtain ⟨dbx, mx⟩ := cx
  simp only at hnil hnilx
  subst hnil hnilx
  refine ⟨⟨fun db => ⟨_, rfl, rfl⟩, fun _ => rfl, ?_, ?_, ?_, ?_⟩,
    ⟨fun db => ⟨_, rfl, rfl⟩, fun _ => rfl, ?_, ?_, ?_, ?_⟩⟩
  · rw [cache_stmt_eq]
    cases hp : B.PrepareContext db ctx q <;> simp [GoMap.lookup]
  · obtain ⟨c1, h1, h2, _⟩ := cache_run_miss B ⟨db, none⟩ o.query o rfl rfl
    exact ⟨c1, h1, h2⟩
  · intro e hp
    have hs := cache_stmt_miss_error B ⟨db, none⟩ ctx q e rfl hp
    simp [Cache.ExecContext, Cache.QueryContext, hs]
  · intro h hp
    have hs := cache_stmt_miss_ok B ⟨db, none⟩ ctx q h rfl hp
    simpa [GoMap.put] using hs
  · rw [cachex_stmt_eq]
    cases hp : Bx.PreparexContext dbx ctx q <;> simp [GoMap.lookup]
  · cases hx : ox.isExecute with
    | true =>
      obtain ⟨c1, h1, h2, _⟩ := cachex_run_miss Bx ⟨dbx, none⟩ ox.query ox rfl hx rfl
      exact ⟨c1, h1, fun _ => h2⟩
    | false =>
      have hsome := cachex_run_isSome Bx ⟨dbx, none⟩ ox
      obtain ⟨c1, h1⟩ := Option.isSome_iff_exists.mp hsome
      exact ⟨c1, h1, fun hf => by cases hf⟩
  · intro e hp
    have hs := cachex_stmt_miss_error Bx ⟨dbx, none⟩ ctx q e rfl hp
    simp [Cachex.ExecContext, Cachex.QueryContext, Cachex.QueryxContext, hs]
  · intro h hp
    have hs := cachex_stmt_miss_ok Bx ⟨dbx, none⟩ ctx q h rfl hp
    simpa [GoMap.put] using hs

/-- A modify on a cache that was closed, over the example backend: the error is the
backend's. -/
theorem nil_map_safe_witness :
    (Cache.mk [sql.Call.Close] none).stmts = none ∧
    Cache.ExecContext sql.Backend.sample (Cache.mk [sql.Call.Close] none) Context.background
        "INSERT INTO t(id) VALUES(?)" [Arg.int 1]
      = some ({ DB := [sql.Call.Close, sql.Call.PrepareContext Context.background
                    "INSERT INTO t(id) VALUES(?)"],
                stmts := none }, .error ⟨"sql: database is closed"⟩) :=
  ⟨rfl,
    ((nil_map_safe sql.Backend.sample sqlx.Backend.sample Context.background
      "INSERT INTO t(id) VALUES(?)" [Arg.int 1] (Cache.mk [sql.Call.Close] none) rfl
      (Cache.Op.Exec "INSERT INTO t(id) VALUES(?)" [Arg.int 1])
      (Cachex.mk [sqlx.Call.Close] none) rfl
      (Cachex.Op.Exec "INSERT INTO t(id) VALUES(?)" [Arg.int 1])).1.2.2.2.2.1
        ⟨"sql: database is closed"⟩ (by rfl)).1⟩

/-! ## Sequential single compilation -/

/-- A sequence of operations of `Cache` keeps an entry and never compiles its text. -/
theorem cache_runOps_preserves (B : sql.Backend) (ops : List Cache.Op) (c : Cache)
    (k : String) (v : sql.Stmt) (hk : GoMap.lookup c.stmts k = some v) :
    ∃ c1, Cache.runOps B c ops = some c1 ∧ GoMap.lookup c1.stmts k = some v ∧
      sql.prepares c1.DB k = sql.prepares c.DB k := by
  induction ops generalizing c with
  | nil => exact ⟨c, rfl, hk, rfl⟩
  | cons o rest ih =>
    obtain ⟨c1, h1, hl1, hn1⟩ := cache_run_preserves B c o k v hk
    obtain ⟨c2, h2, hl2, hn2⟩ := ih c1 hl1
    exact ⟨c2, by simp [Cache.runOps, h1, h2], hl2, by rw [hn2, hn1]⟩

/-- A sequence of operations of `Cachex` keeps an entry and never compiles its text. -/
theorem cachex_runOps_preserves (B : sqlx.Backend) (ops : List Cachex.Op) (c : Cachex)
    (k : String) (v : sqlx.Stmt) (hk : GoMap.lookup c.stmts k = some v) :
    ∃ c1, Cachex.runOps B c ops = some c1 ∧ GoMap.lookup c1.stmts k = some v ∧
      sqlx.prepares c1.DB k = sqlx.prepares c.DB k := by
  induction ops generalizing c with
  | nil => exact ⟨c, rfl, hk, rfl⟩
  | cons o rest ih =>
    obtain ⟨c1, h1, hl1, hn1⟩ := cachex_run_preserves B c o k v hk
    obtain ⟨c2, h2, hl2, hn2⟩ := ih c1 hl1
    exact ⟨c2, by simp [Cachex.runOps, h1, h2], hl2, by rw [hn2, hn1]⟩

/-- C1: from a cache with no entry for `q` and a compile of `q` that succeeds with `h`,
resolve returns `h`, stores `q -> h` and has invoked compile for `q` once; and after any
further sequence `ops` of resolve and execute operations (on any texts, `Close` not being
among them) no fault has occurred, the map still holds `h` under `q`, resolve of `q` under
any context returns `h` and changes nothing, and compile has not been invoked for `q`
again. Both `Cache` and `Cachex`. -/
theorem single_compilation (B : sql.Backend) (Bx : sqlx.Backend) (ctx : Context) (q : String)
    (c : Cache) (h : sql.Stmt) (hc : GoMap.lookup c.stmts q = none)
    (hp : B.PrepareContext c.DB ctx q = .ok h) (ops : List Cache.Op)
    (cx : Cachex) (hx : sqlx.Stmt) (hcx : GoMap.lookup cx.stmts q = none)
    (hpx : Bx.PreparexContext cx.DB ctx q = .ok hx) (opsx : List Cachex.Op) :
    (∃ c1, Cache.stmt B c ctx q = some (c1, .ok h) ∧ GoMap.lookup c1.stmts q = some h ∧
      sql.prepares c1.DB q = sql.prepares c.DB q + 1 ∧
      ∃ c2, Cache.runOps B c1 ops = some c2 ∧ GoMap.lookup c2.stmts q = some h ∧
        (∀ ctx1, Cache.stmt B c2 ctx1 q = some (c2, .ok h)) ∧
        sql.prepares c2.DB q = sql.prepares c1.DB q) ∧
    (∃ c1, Cachex.stmt Bx cx ctx q = some (c1, .ok hx) ∧ GoMap.lookup c1.stmts q = some hx ∧
      sqlx.prepares c1.DB q = sqlx.prepares cx.DB q + 1 ∧
      ∃ c2, Cachex.runOps Bx c1 opsx = some c2 ∧ GoMap.lookup c2.stmts q = some hx ∧
        (∀ ctx1, Cachex.stmt Bx c2 ctx1 q = some (c2, .ok hx)) ∧
        sqlx.prepares c2.DB q = sqlx.prepares c1.DB q) := by
  constructor
  · have hl : GoMap.lookup (some (GoMap.put (c.stmts.getD []) q h)) q = some h :=
      find_put_same _ q h
    obtain ⟨c2, h2, hl2, hn2⟩ := cache_runOps_preserves B ops
      ⟨c.DB ++ [sql.Call.PrepareContext ctx q], some (GoMap.put (c.stmts.getD []) q h)⟩ q h hl
    exact ⟨_, cache_stmt_miss_ok B c ctx q h hc hp, hl,
      by simp [sql_prepares_append, sql_prepares_cons, sql_prepares_nil, sql.Call.isPrepare],
      c2, h2, hl2, fun ctx1 => cache_stmt_hit B c2 ctx1 q h hl2, hn2⟩
  · have hl : GoMap.lookup (some (GoMap.put (cx.stmts.getD []) q hx)) q = some hx :=
      find_put_same _ q hx
    obtain ⟨c2, h2, hl2, hn2⟩ := cachex_runOps_preserves Bx opsx
      ⟨cx.DB ++ [sqlx.Call.PreparexContext ctx q], some (GoMap.put (cx.stmts.getD []) q hx)⟩
      q hx hl
    exact ⟨_, cachex_stmt_miss_ok Bx cx ctx q hx hcx hpx, hl,
      by simp [sqlx_prepares_append, sqlx_prepares_cons, sqlx_prepares_nil,
        sqlx.Call.isPrepare],
      c2, h2, hl2, fun ctx1 => cachex_stmt_hit Bx c2 ctx1 q hx hl2, hn2⟩

/-- The text `SELECT 1` on a fresh cache over the example backend, followed by a modify, a
query of the same text and a single-row query of a text that does not compile. -/
theorem single_compilation_witness :
    GoMap.lookup (Cache.mk [] none).stmts "SELECT 1" = none ∧
    ∃ c1, Cache.stmt sql.Backend.sample (Cache.mk [] none) Context.background "SELECT 1"
        = some (c1, .ok ⟨0⟩) ∧
      ∃ c2, Cache.runOps sql.Backend.sample c1
          [Cache.Op.Exec "INSERT" [Arg.int 1], Cache.Op.Query "SELECT 1" [],
            Cache.Op.QueryRow "SELEKT 1" []] = some c2 ∧
        GoMap.lookup c2.stmts "SELECT 1" = some ⟨0⟩ ∧
        sql.prepares c2.DB "SELECT 1" = sql.prepares c1.DB "SELECT 1" :=
  have key := single_compilation sql.Backend.sample sqlx.Backend.sample Context.background
    "SELECT 1" (Cache.mk [] none) ⟨0⟩ (by rfl) (by rfl)
    [Cache.Op.Exec "INSERT" [Arg.int 1], Cache.Op.Query "SELECT 1" [],
      Cache.Op.QueryRow "SELEKT 1" []]
    (Cachex.mk [] none) ⟨0⟩ (by rfl) (by rfl)
    [Cachex.Op.Get ⟨[]⟩ "SELECT 1" [], Cachex.Op.Select ⟨[]⟩ "SELECT 2" []]
  ⟨by rfl, key.1.elim fun c1 hc1 =>
    ⟨c1, hc1.1, hc1.2.2.2.elim fun c2 hc2 => ⟨c2, hc2.1, hc2.2.1, hc2.2.2.2⟩⟩⟩

/-! ## Convenience forms -/

/-- The convenience forms that are their context form under the background context:
all of `Cache`, and all of `Cachex` but `Get`. -/
theorem convenience_forms (B : sql.Backend) (Bx : sqlx.Backend) (c : Cache) (cx : Cachex)
    (dest : sqlx.Dest) (q : String) (args : List Arg) :
    (Cache.Query B c q args = Cache.QueryContext B c Context.background q args ∧
      Cache.QueryRow B c q args = Cache.QueryRowContext B c Context.background q args ∧
      Cache.Exec B c q args = Cache.ExecContext B c Context.background q args) ∧
    (Cachex.Queryx Bx cx q args = Cachex.QueryxContext Bx cx Context.background q args ∧
      Cachex.Query Bx cx q args = Cachex.QueryContext Bx cx Context.background q args ∧
      Cachex.QueryxRow Bx cx q args
        = Cachex.QueryRowxContext Bx cx Context.background q args ∧
      Cachex.QueryRow Bx cx q args = Cachex.QueryRowContext Bx cx Context.background q args ∧
      Cachex.Exec Bx cx q args = Cachex.ExecContext Bx cx Context.background q args ∧
      Cachex.Select Bx cx dest q args
        = Cachex.SelectContext Bx cx Context.background dest q args) :=
  ⟨⟨rfl, rfl, rfl⟩, ⟨rfl, rfl, rfl, rfl, rfl, rfl⟩⟩

/-- The convenience form `Get` never touches the map and never compiles: it issues the
direct `QueryRowx` call of the embedded `*sqlx.DB` and decodes the row. -/
theorem cachex_Get_direct (B : sqlx.Backend) (c : Cachex) (dest : sqlx.Dest) (q : String)
    (args : List Arg) :
    Cachex.Get B c dest q args
      = some ({ c with DB := c.DB ++ [sqlx.Call.QueryRowx q args] },
          B.scanAny (B.QueryRowx c.DB q args) dest) := rfl

/-- C9: the convenience form `Cachex.Get` is not `Cachex.GetContext` under the background
context. On a fresh `Cachex` over the example backend, `Get` for `SELECT 1` issues the
direct `QueryRowx` call and leaves the map nil, while `GetContext` with the background
context compiles the text, runs the handle and leaves the map holding the handle. -/
theorem get_bypasses_cache :
    Cachex.Get sqlx.Backend.sample (Cachex.mk [] none) ⟨[]⟩ "SELECT 1" []
      = some (Cachex.mk [sqlx.Call.QueryRowx "SELECT 1" []] none, ⟨[]⟩, none) ∧
    Cachex.GetContext sqlx.Backend.sample (Cachex.mk [] none) Context.background ⟨[]⟩
        "SELECT 1" []
      = some (Cachex.mk [sqlx.Call.PreparexContext Context.background "SELECT 1",
            sqlx.Call.StmtQueryRowxContext ⟨0⟩ Context.background []]
          (some [("SELECT 1", ⟨0⟩)]), ⟨[]⟩, none) ∧
    (Cachex.Get sqlx.Backend.sample (Cachex.mk [] none) ⟨[]⟩ "SELECT 1" []).map
        (fun r => r.1.stmts)
      ≠ (Cachex.GetContext sqlx.Backend.sample (Cachex.mk [] none) Context.background ⟨[]⟩
        "SELECT 1" []).map (fun r => r.1.stmts) := by
  refine ⟨by rfl, by rfl, ?_⟩
  intro h
  have h1 : (Cachex.Get sqlx.Backend.sample (Cachex.mk [] none) ⟨[]⟩ "SELECT 1" []).map
      (fun r => r.1.stmts) = some none := by rfl
  have h2 : (Cachex.GetContext sqlx.Backend.sample (Cachex.mk [] none) Context.background
      ⟨[]⟩ "SELECT 1" []).map (fun r => r.1.stmts) = some (some [("SELECT 1", ⟨0⟩)]) := by
    rfl
  rw [h1, h2] at h
  cases h

/-! ## Lists of callers -/

namespace Steps

theorem countP_set_add {α : Type} (p : α → Bool) (l : List α) (i : Nat) (a b : α)
    (hi : l[i]? = some a) :
    (l.set i b).countP p + (if p a then 1 else 0) = l.countP p + (if p b then 1 else 0) := by
  induction l generalizing i with
  | nil => simp at hi
  | cons x rest ih =>
    cases i with
    | zero =>
      simp only [List.getElem?_cons_zero, Option.some.injEq] at hi
      subst hi
      simp only [List.set_cons_zero, List.countP_cons]
      omega
    | succ n =>
      simp only [List.getElem?_cons_succ] at hi
      have := ih n hi
      simp only [List.set_cons_succ, List.countP_cons]
      omega

theorem getElem?_set_cases {α : Type} (l : List α) (i j : Nat) (a x : α)
    (h : (l.set i a)[j]? = some x) : (j = i ∧ x = a) ∨ (j ≠ i ∧ l[j]? = some x) := by
  rw [List.getElem?_set] at h
  by_cases hij : i = j
  · subst hij
    simp only [if_true] at h
    split at h
    · exact Or.inl ⟨rfl, by simpa using h.symm⟩
    · cases h
  · rw [if_neg hij] at h
    exact Or.inr ⟨fun e => hij e.symm, h⟩

/-- With at most one element satisfying `p`, two positions holding such elements are one. -/
theorem countP_le_one_unique {α : Type} (p : α → Bool) (l : List α)
    (h : l.countP p ≤ 1) (i j : Nat) (a b : α) (hi : l[i]? = some a) (hj : l[j]? = some b)
    (pa : p a = true) (pb : p b = true) : i = j := by
  induction l generalizing i j with
  | nil => simp at hi
  | cons x rest ih =>
    have hpos : ∀ (k : Nat) (c : α), rest[k]? = some c → p c = true → 0 < rest.countP p := by
      intro k c hk pc
      exact List.countP_pos_iff.mpr ⟨c, List.getElem?_mem hk, pc⟩
    cases i with
    | zero =>
      cases j with
      | zero => rfl
      | succ m =>
        simp only [List.getElem?_cons_zero, Option.some.injEq] at hi
        simp only [List.getElem?_cons_succ] at hj
        subst hi
        have := hpos m b hj pb
        simp only [List.countP_cons, pa, if_true] at h
        omega
    | succ n =>
      cases j with
      | zero =>
        simp only [List.getElem?_cons_zero, Option.some.injEq] at hj
        simp only [List.getElem?_cons_succ] at hi
        subst hj
        have := hpos n a hi pa
        simp only [List.countP_cons, pb, if_true] at h
        omega
      | succ m =>
        simp only [List.getElem?_cons_succ] at hi hj
        have hle : rest.countP p ≤ 1 := by
          simp only [List.countP_cons] at h
          omega
        rw [ih hle n m hi hj]

theorem exists_of_countP_pos {α : Type} (p : α → Bool) (l : List α) (h : 0 < l.countP p) :
    ∃ (i : Nat) (a : α), l[i]? = some a ∧ p a = true := by
  obtain ⟨a, ha, pa⟩ := List.countP_pos_iff.mp h
  obtain ⟨i, hi⟩ := List.getElem?_of_mem ha
  exact ⟨i, a, hi, pa⟩

/-! ## The lock -/

/-- A move is a statement of one caller. -/
theorem step_eq {C V : Type} (K : Compile C V) (s s1 : Sys C V) (i : Nat)
    (h : step K s i = some s1) :
    ∃ t m pc, s.callers[i]? = some t ∧ next K s.mem t = some (m, pc) ∧
      s1 = { mem := m, callers := s.callers.set i { t with pc := pc } } := by
  unfold step at h
  cases ht : s.callers[i]? with
  | none => simp [ht] at h
  | some t =>
    cases hn : next K s.mem t with
    | none => simp [ht, hn] at h
    | some r =>
      obtain ⟨m, pc⟩ := r
      simp only [ht, hn, Option.some.injEq] at h
      exact ⟨t, m, pc, rfl, hn, h.symm⟩

/-- Every move keeps the lock in agreement with where the callers stand. -/
theorem locks_step {C V : Type} (K : Compile C V) (s s1 : Sys C V) (i : Nat)
    (hl : Locks s) (h : step K s i = some s1) : Locks s1 := by
  obtain ⟨t, m, pc, ht, hn, rfl⟩ := step_eq K s s1 i h
  obtain ⟨⟨db, stmts, readers, writer⟩, callers⟩ := s
  obtain ⟨hr, hw⟩ := hl
  have cr := countP_set_add (fun t : Caller V => t.pc.inRead) callers i t
    { t with pc := pc } ht
  have cw := countP_set_add (fun t : Caller V => t.pc.inWrite) callers i t
    { t with pc := pc } ht
  simp only at cr cw hr hw
  show m.readers = List.countP (fun t : Caller V => t.pc.inRead)
      (callers.set i { t with pc := pc }) ∧
    List.countP (fun t : Caller V => t.pc.inWrite) (callers.set i { t with pc := pc })
      = if m.writer then 1 else 0
  generalize List.countP (fun t : Caller V => t.pc.inRead)
    (callers.set i { t with pc := pc }) = R1 at cr ⊢
  generalize List.countP (fun t : Caller V => t.pc.inWrite)
    (callers.set i { t with pc := pc }) = W1 at cw ⊢
  generalize List.countP (fun t : Caller V => t.pc.inRead) callers = R0 at cr hr
  generalize List.countP (fun t : Caller V => t.pc.inWrite) callers = W0 at cw hw
  subst hr
  cases writer <;> cases hpc : t.pc <;> simp only [next, hpc] at hn <;>
    (try split at hn) <;>
    simp at hn <;>
    obtain ⟨rfl, rfl⟩ := hn <;>
    simp [hpc, Pc.inRead, Pc.inWrite] at cr cw hw ⊢ <;>
    first | omega | simp_all

theorem forall_set {α : Type} (P Q : α → Prop) (l : List α) (i : Nat) (a : α)
    (hall : ∀ (j : Nat) (x : α), l[j]? = some x → P x) (ha : Q a)
    (himp : ∀ (j : Nat) (x : α), j ≠ i → l[j]? = some x → P x → Q x) :
    ∀ (j : Nat) (x : α), (l.set i a)[j]? = some x → Q x := by
  intro j x hx
  rcases getElem?_set_cases l i j a x hx with ⟨_, rfl⟩ | ⟨hne, hj⟩
  · exact ha
  · exact himp j x hne hj (hall j x hj)

theorem same_step {C V : Type} (K : Compile C V) (s s1 : Sys C V) (i : Nat) (query : String)
    (ctxs : List Context)
    (hs : ∀ (j : Nat) (t : Caller V), s.callers[j]? = some t →
      t.query = query ∧ t.ctx ∈ ctxs)
    (h : step K s i = some s1) :
    ∀ (j : Nat) (t : Caller V), s1.callers[j]? = some t →
      t.query = query ∧ t.ctx ∈ ctxs := by
  obtain ⟨t, m, pc, ht, hn, rfl⟩ := step_eq K s s1 i h
  exact forall_set _ _ _ _ _ hs (hs i t ht) (fun _ _ _ _ hx => hx)

theorem Pc.early_storing {V : Type} (h : V) (m : GoMap V) (pc : Pc V) (he : pc.early)
    (hw : pc.inWrite = false) : pc.storing h m := by
  cases pc <;> simp_all [Pc.early, Pc.storing, Pc.inWrite]

theorem Pc.storing_mono {V : Type} (h : V) (m m1 : GoMap V) (pc : Pc V)
    (hs : pc.storing h m) (hm : m1 ≠ none) : pc.storing h m1 := by
  cases pc <;> simp_all [Pc.storing]

theorem Pc.storing_late {V : Type} (h : V) (m : GoMap V) (pc : Pc V) (hs : pc.storing h m)
    (hw : pc.inWrite = false) : pc.late h := by
  cases pc <;> simp_all [Pc.storing, Pc.late, Pc.inWrite]

/-- Every move keeps, or advances, the phase of the compilation. -/
theorem phase_step {C V : Type} (K : Compile C V) (db : List C) (query : String)
    (ctxs : List Context) (hok : ∀ ctx ∈ ctxs, ∃ h, K.answer db ctx query = .ok h)
    (s s1 : Sys C V) (i : Nat) (hinv : Inv K db query ctxs s)
    (hstep : step K s i = some s1) : Phase K db query ctxs s1 := by
  obtain ⟨hl, hsame, hph⟩ := hinv
  obtain ⟨t, m, pc, ht, hn, rfl⟩ := step_eq K s s1 i hstep
  obtain ⟨hq, hctx⟩ := hsame i t ht
  have excl : t.pc.inWrite = true → ∀ (j : Nat) (x : Caller V), j ≠ i →
      s.callers[j]? = some x → x.pc.inWrite = false := by
    intro hw j x hne hx
    cases hxw : x.pc.inWrite with
    | false => rfl
    | true =>
      have hle : s.callers.countP (fun t => t.pc.inWrite) ≤ 1 := by
        rw [hl.2]; split <;> omega
      exact absurd (countP_le_one_unique _ _ hle j i x t hx ht hxw hw) hne
  have hwr : t.pc.inWrite = true → s.mem.writer = true := by
    intro hw
    have hpos : 0 < s.callers.countP (fun t => t.pc.inWrite) :=
      List.countP_pos_iff.mpr ⟨t, List.getElem?_mem ht, hw⟩
    rw [hl.2] at hpos
    by_contra hc
    simp [hc] at hpos
  obtain ⟨⟨db0, stmts, readers, writer⟩, callers⟩ := s
  simp only at ht hn excl hwr hph hsame ⊢
  subst hq
  unfold Phase
  simp only
  cases hpc : t.pc <;> simp only [next, hpc] at hn <;> (try split at hn) <;>
    simp at hn <;> obtain ⟨rfl, rfl⟩ := hn <;>
    rcases hph with
      ⟨hdb, hlk, hall⟩ | ⟨ctx, h, hmem, hans, hdb, ⟨hlk, hw1, hall⟩ | ⟨hlk, hall⟩⟩ <;>
    have hP := hall i t ht <;>
    simp only [hpc, Pc.early, Pc.storing, Pc.late] at hP
  all_goals first
    | exact Or.inl ⟨hdb, hlk, forall_set _ _ _ _ _ hall (by simp_all [Pc.early])
        (fun _ _ _ _ hx => hx)⟩
    | exact Or.inr ⟨ctx, h, hmem, hans, hdb, Or.inl ⟨hlk, hw1,
        forall_set _ _ _ _ _ hall (by simp_all [Pc.storing]) (fun _ _ _ _ hx => hx)⟩⟩
    | exact Or.inr ⟨ctx, h, hmem, hans, hdb, Or.inr ⟨hlk,
        forall_set _ _ _ _ _ hall (by simp_all [Pc.late]) (fun _ _ _ _ hx => hx)⟩⟩
    | (exfalso; simp_all [GoMap.assign]; done)
    | skip
  · have hW : t.pc.inWrite = true := by rw [hpc]; rfl
    obtain ⟨h, hh⟩ := hok t.ctx hctx
    simp only at hdb
    subst hdb
    exact Or.inr ⟨t.ctx, h, hctx, hh, rfl, Or.inl ⟨hlk, hwr hW,
      forall_set _ _ _ _ _ hall (by simpa [Pc.storing] using hh)
        (fun j x hne hx he => Pc.early_storing h _ x.pc he (excl hW j x hne hx))⟩⟩
  · exact Or.inr ⟨ctx, h, hmem, hans, hdb, Or.inl ⟨rfl, hw1,
      forall_set _ _ _ _ _ hall ⟨hP, by simp⟩
        (fun _ x _ _ hx => Pc.storing_mono h _ _ x.pc hx (by simp))⟩⟩
  · rename_i stmt x heq
    exfalso
    cases stmts with
    | none => exact hP.2 rfl
    | some es => simp [GoMap.assign] at heq
  · rename_i stmt x stmts1 heq
    have hW : t.pc.inWrite = true := by rw [hpc]; rfl
    obtain ⟨rfl, hne⟩ := hP
    cases stmts with
    | none => exact absurd rfl hne
    | some es =>
      simp only [GoMap.assign, Option.some.injEq] at heq
      subst heq
      exact Or.inr ⟨ctx, stmt, hmem, hans, hdb, Or.inr ⟨find_put_same es _ _,
        forall_set _ _ _ _ _ hall (by simp [Pc.late])
          (fun j x hne hx hs => Pc.storing_late stmt _ x.pc hs (excl hW j x hne hx))⟩⟩

/-- Every move keeps the invariant. -/
theorem inv_step {C V : Type} (K : Compile C V) (db : List C) (query : String)
    (ctxs : List Context) (hok : ∀ ctx ∈ ctxs, ∃ h, K.answer db ctx query = .ok h)
    (s s1 : Sys C V) (i : Nat) (hinv : Inv K db query ctxs s)
    (hstep : step K s i = some s1) : Inv K db query ctxs s1 :=
  ⟨locks_step K s s1 i hinv.1 hstep, same_step K s s1 i query ctxs hinv.2.1 hstep,
    phase_step K db query ctxs hok s s1 i hinv hstep⟩

/-- Every interleaving keeps the invariant. -/
theorem inv_exec {C V : Type} (K : Compile C V) (db : List C) (query : String)
    (ctxs : List Context) (hok : ∀ ctx ∈ ctxs, ∃ h, K.answer db ctx query = .ok h)
    (sched : List Nat) (s : Sys C V) (hinv : Inv K db query ctxs s) :
    Inv K db query ctxs (exec K s sched) := by
  induction sched generalizing s with
  | nil => exact hinv
  | cons i rest ih =>
    unfold exec
    cases hs : step K s i with
    | none => exact ih s hinv
    | some s1 => exact ih s1 (inv_step K db query ctxs hok s s1 i hinv hs)

theorem start_callers {V : Type} (query : String) (ctxs : List Context) (j : Nat)
    (t : Caller V)
    (ht : (ctxs.map fun ctx => ({ ctx := ctx, query := query, pc := .rlock } : Caller V))[j]?
      = some t) :
    t.query = query ∧ t.ctx ∈ ctxs ∧ t.pc = .rlock := by
  rw [List.getElem?_map] at ht
  cases hc : ctxs[j]? with
  | none => simp [hc] at ht
  | some ctx =>
    simp only [hc, Option.map_some', Option.some.injEq] at ht
    subst ht
    exact ⟨rfl, List.getElem?_mem hc, rfl⟩

theorem countP_eq_zero_of {α : Type} (p : α → Bool) (l : List α)
    (h : ∀ (j : Nat) (x : α), l[j]? = some x → p x = false) : l.countP p = 0 := by
  rw [List.countP_eq_zero]
  intro a ha
  obtain ⟨j, hj⟩ := List.getElem?_of_mem ha
  simp [h j a hj]

/-- The invariant holds when the callers start on a cache without an entry for the text. -/
theorem inv_start {C V : Type} (K : Compile C V) (db : List C) (stmts : GoMap V)
    (query : String) (ctxs : List Context) (hmiss : GoMap.lookup stmts query = none) :
    Inv K db query ctxs (start db stmts query ctxs) := by
  refine ⟨⟨?_, ?_⟩, ?_, Or.inl ⟨rfl, hmiss, ?_⟩⟩
  · symm
    apply countP_eq_zero_of
    intro j x hx
    rw [(start_callers query ctxs j x hx).2.2]
    rfl
  · show List.countP _ _ = 0
    apply countP_eq_zero_of
    intro j x hx
    rw [(start_callers query ctxs j x hx).2.2]
    rfl
  · intro j t ht
    exact ⟨(start_callers query ctxs j t ht).1, (start_callers query ctxs j t ht).2.1⟩
  · intro j t ht
    rw [(start_callers query ctxs j t ht).2.2]
    trivial

theorem exec_length {C V : Type} (K : Compile C V) (sched : List Nat) (s : Sys C V) :
    (exec K s sched).callers.length = s.callers.length := by
  induction sched generalizing s with
  | nil => rfl
  | cons i rest ih =>
    unfold exec
    cases hs : step K s i with
    | none => exact ih s
    | some s1 =>
      obtain ⟨t, m, pc, _, _, rfl⟩ := step_eq K s s1 i hs
      rw [ih]
      simp

/-! ## Progress and termination -/

theorem next_isSome_locked {C V : Type} (K : Compile C V) (m : Shared C V) (t : Caller V)
    (h : t.pc.inRead = true ∨ t.pc.inWrite = true) : (next K m t).isSome = true := by
  cases hpc : t.pc <;> simp [hpc, Pc.inRead, Pc.inWrite] at h <;> simp only [next, hpc] <;>
    (try split) <;> rfl

theorem next_isSome_free {C V : Type} (K : Compile C V) (m : Shared C V) (t : Caller V)
    (hw : m.writer = false) (hr : m.readers = 0) (hd : t.pc.isDone = false)
    (hf : t.pc ≠ .fault) : (next K m t).isSome = true := by
  cases hpc : t.pc <;> simp [hpc, Pc.isDone] at hd hf <;> simp only [next, hpc, hw, hr] <;>
    (try split) <;> simp_all

/-- While a caller has neither returned nor stopped, some caller can move. -/
theorem progress {C V : Type} (K : Compile C V) (s : Sys C V) (hl : Locks s)
    (j : Nat) (t : Caller V) (ht : s.callers[j]? = some t) (hd : t.pc.isDone = false)
    (hf : t.pc ≠ .fault) : ∃ i, (step K s i).isSome = true := by
  have hstep : ∀ (i : Nat) (a : Caller V), s.callers[i]? = some a →
      (next K s.mem a).isSome = true → (step K s i).isSome = true := by
    intro i a ha hn
    unfold step
    rw [ha]
    cases hnx : next K s.mem a with
    | none => simp [hnx] at hn
    | some r => simp [hnx]
  obtain ⟨hr, hw⟩ := hl
  cases hwr : s.mem.writer with
  | true =>
    rw [hwr] at hw
    obtain ⟨i, a, ha, hp⟩ := exists_of_countP_pos _ s.callers (by rw [hw]; decide)
    exact ⟨i, hstep i a ha (next_isSome_locked K s.mem a (Or.inr hp))⟩
  | false =>
    by_cases hz : s.mem.readers = 0
    · exact ⟨j, hstep j t ht (next_isSome_free K s.mem t hwr hz hd hf)⟩
    · obtain ⟨i, a, ha, hp⟩ := exists_of_countP_pos (fun t : Caller V => t.pc.inRead)
        s.callers (by omega)
      exact ⟨i, hstep i a ha (next_isSome_locked K s.mem a (Or.inl hp))⟩

theorem next_fuel {C V : Type} (K : Compile C V) (m m1 : Shared C V) (t : Caller V)
    (pc : Pc V) (h : next K m t = some (m1, pc)) : pc.fuel < t.pc.fuel := by
  cases hpc : t.pc <;> simp only [next, hpc] at h <;> (try split at h) <;> simp at h <;>
    obtain ⟨_, rfl⟩ := h <;> simp [Pc.fuel]

theorem fuel_set {V : Type} (l : List (Caller V)) (i : Nat) (a b : Caller V)
    (hi : l[i]? = some a) : fuel (l.set i b) + a.pc.fuel = fuel l + b.pc.fuel := by
  induction l generalizing i with
  | nil => simp at hi
  | cons x rest ih =>
    cases i with
    | zero =>
      simp only [List.getElem?_cons_zero, Option.some.injEq] at hi
      subst hi
      simp only [List.set_cons_zero, fuel]
      omega
    | succ n =>
      simp only [List.getElem?_cons_succ] at hi
      have := ih n hi
      simp only [List.set_cons_succ, fuel]
      omega

/-- Every statement a caller runs uses up fuel: an interleaving has finitely many moves. -/
theorem step_fuel {C V : Type} (K : Compile C V) (s s1 : Sys C V) (i : Nat)
    (h : step K s i = some s1) : fuel s1.callers < fuel s.callers := by
  obtain ⟨t, m, pc, ht, hn, rfl⟩ := step_eq K s s1 i h
  have h1 := next_fuel K s.mem m t pc hn
  have h2 := fuel_set s.callers i t { t with pc := pc } ht
  simp only at h2 ⊢
  omega

theorem start_fuel {C V : Type} (db : List C) (stmts : GoMap V) (query : String)
    (ctxs : List Context) : fuel (start db stmts query ctxs).callers = 11 * ctxs.length := by
  induction ctxs with
  | nil => rfl
  | cons c rest ih =>
    simp only [start, List.map_cons, fuel, Pc.fuel, List.length_cons] at ih ⊢
    omega

theorem exec_fuel_le {C V : Type} (K : Compile C V) (sched : List Nat) (s : Sys C V) :
    fuel (exec K s sched).callers ≤ fuel s.callers := by
  induction sched generalizing s with
  | nil => exact Nat.le_refl _
  | cons i rest ih =>
    unfold exec
    cases hs : step K s i with
    | none => exact ih s
    | some s1 => exact Nat.le_trans (ih s1) (Nat.le_of_lt (step_fuel K s s1 i hs))

/-! ## Single compilation in every interleaving -/

/-- Under the invariant no caller has faulted. -/
theorem inv_no_fault {C V : Type} (K : Compile C V) (db : List C) (query : String)
    (ctxs : List Context) (s : Sys C V) (hinv : Inv K db query ctxs s) (j : Nat)
    (t : Caller V) (ht : s.callers[j]? = some t) : t.pc ≠ .fault := by
  intro hf
  rcases hinv.2.2 with
    ⟨_, _, hall⟩ | ⟨ctx, h, _, _, _, ⟨_, _, hall⟩ | ⟨_, hall⟩⟩ <;>
    have hP := hall j t ht <;>
    rw [hf] at hP <;>
    exact hP

/-- Under the invariant the history holds at most the one compile call, and whoever has
returned has returned its handle. -/
theorem inv_history {C V : Type} (K : Compile C V) (db : List C) (query : String)
    (ctxs : List Context) (s : Sys C V) (hinv : Inv K db query ctxs s) :
    (s.mem.DB = db ∧ ∀ (j : Nat) (t : Caller V), s.callers[j]? = some t →
        t.pc.isDone = false) ∨
    ∃ ctx ∈ ctxs, ∃ h, K.answer db ctx query = .ok h ∧
      s.mem.DB = db ++ [K.call ctx query] ∧
      ∀ (j : Nat) (t : Caller V) (r : Except Error V), s.callers[j]? = some t →
        t.pc = .done r → r = .ok h := by
  rcases hinv.2.2 with
    ⟨hdb, _, hall⟩ | ⟨ctx, h, hmem, hans, hdb, ⟨_, _, hall⟩ | ⟨_, hall⟩⟩
  · refine Or.inl ⟨hdb, fun j t ht => ?_⟩
    have hP := hall j t ht
    cases hpc : t.pc <;> simp_all [Pc.early, Pc.isDone]
  · refine Or.inr ⟨ctx, hmem, h, hans, hdb, fun j t r ht hpc => ?_⟩
    have hP := hall j t ht
    rw [hpc] at hP
    exact absurd hP (by simp [Pc.storing])
  · refine Or.inr ⟨ctx, hmem, h, hans, hdb, fun j t r ht hpc => ?_⟩
    have hP := hall j t ht
    rw [hpc] at hP
    exact hP

/-- Callers that all resolve a text with no entry, whose compile succeeds, in the state
`s` an interleaving leads to: nobody has faulted; either nobody has returned and the history
is the old one, or it is the old one plus one compile call and whoever has returned has
the handle of that compile; somebody can move while somebody has not returned; every move
uses up fuel. -/
theorem single_compile {C V : Type} (K : Compile C V) (db : List C) (stmts : GoMap V)
    (query : String) (ctxs : List Context) (hmiss : GoMap.lookup stmts query = none)
    (hok : ∀ ctx ∈ ctxs, ∃ h, K.answer db ctx query = .ok h) (sched : List Nat)
    (s : Sys C V) (hs : s = exec K (start db stmts query ctxs) sched) :
    s.callers.length = ctxs.length ∧
    (∀ (j : Nat) (t : Caller V), s.callers[j]? = some t → t.pc ≠ .fault) ∧
    ((s.mem.DB = db ∧
        ∀ (j : Nat) (t : Caller V), s.callers[j]? = some t → t.pc.isDone = false) ∨
      ∃ ctx ∈ ctxs, ∃ h, K.answer db ctx query = .ok h ∧
        s.mem.DB = db ++ [K.call ctx query] ∧
        ∀ (j : Nat) (t : Caller V) (r : Except Error V),
          s.callers[j]? = some t → t.pc = .done r → r = .ok h) ∧
    ((∃ (j : Nat) (t : Caller V), s.callers[j]? = some t ∧ t.pc.isDone = false) →
      ∃ i, (step K s i).isSome = true) ∧
    (∀ (i : Nat) (s1 : Sys C V), step K s i = some s1 → fuel s1.callers < fuel s.callers) ∧
    fuel s.callers ≤ 11 * ctxs.length := by
  subst hs
  have hinv := inv_exec K db query ctxs hok sched _ (inv_start K db stmts query ctxs hmiss)
  refine ⟨?_, fun j t ht => inv_no_fault K db query ctxs _ hinv j t ht,
    inv_history K db query ctxs _ hinv, ?_, fun i s1 hs => step_fuel K _ s1 i hs, ?_⟩
  · rw [exec_length]
    simp [start]
  · rintro ⟨j, t, ht, hd⟩
    exact progress K _ hinv.1 j t ht hd (inv_no_fault K db query ctxs _ hinv j t ht)
  · have := exec_fuel_le K sched (start db stmts query ctxs)
    rw [start_fuel] at this
    exact this

theorem exec_append {C V : Type} (K : Compile C V) (a b : List Nat) (s : Sys C V) :
    exec K s (a ++ b) = exec K (exec K s a) b := by
  induction a generalizing s with
  | nil => rfl
  | cons i rest ih =>
    simp only [List.cons_append, exec]
    cases step K s i with
    | none => exact ih s
    | some s1 => exact ih s1

/-- Under the invariant the callers can be scheduled so that all of them return. -/
theorem completes {C V : Type} (K : Compile C V) (db : List C) (query : String)
    (ctxs : List Context) (hok : ∀ ctx ∈ ctxs, ∃ h, K.answer db ctx query = .ok h)
    (n : Nat) (s : Sys C V) (hinv : Inv K db query ctxs s) (hn : fuel s.callers ≤ n) :
    ∃ more, ∀ (j : Nat) (t : Caller V), (exec K s more).callers[j]? = some t →
      t.pc.isDone = true := by
  induction n generalizing s with
  | zero =>
    by_cases hall : ∀ (j : Nat) (t : Caller V), s.callers[j]? = some t → t.pc.isDone = true
    · exact ⟨[], hall⟩
    · exfalso
      simp only [not_forall] at hall
      obtain ⟨j, t, ht, hd⟩ := hall
      obtain ⟨i, hi⟩ := progress K s hinv.1 j t ht (by simpa using hd)
        (inv_no_fault K db query ctxs s hinv j t ht)
      obtain ⟨s1, hs1⟩ := Option.isSome_iff_exists.mp hi
      have := step_fuel K s s1 i hs1
      omega
  | succ n ih =>
    by_cases hall : ∀ (j : Nat) (t : Caller V), s.callers[j]? = some t → t.pc.isDone = true
    · exact ⟨[], hall⟩
    · simp only [not_forall] at hall
      obtain ⟨j, t, ht, hd⟩ := hall
      obtain ⟨i, hi⟩ := progress K s hinv.1 j t ht (by simpa using hd)
        (inv_no_fault K db query ctxs s hinv j t ht)
      obtain ⟨s1, hs1⟩ := Option.isSome_iff_exists.mp hi
      have hf := step_fuel K s s1 i hs1
      obtain ⟨more, hmore⟩ := ih s1 (inv_step K db query ctxs hok s s1 i hinv hs1) (by omega)
      refine ⟨i :: more, ?_⟩
      simp only [exec, hs1]
      exact hmore

theorem results_replicate {V : Type} (r : Except Error V) (l : List (Caller V))
    (h : ∀ (j : Nat) (t : Caller V), l[j]? = some t → t.pc = .done r) :
    results l = List.replicate l.length r := by
  induction l with
  | nil => rfl
  | cons x rest ih =>
    have hx : x.pc = .done r := h 0 x (by simp)
    have hrest : results rest = List.replicate rest.length r :=
      ih (fun j t ht => h (j + 1) t (by simpa using ht))
    simp only [results, hx, hrest, List.length_cons, List.replicate_succ]

/-- Once all the callers, at least one, have returned: the history holds the one compile
call and every caller has returned the handle of that compile. -/
theorem all_done {C V : Type} (K : Compile C V) (db : List C) (query : String)
    (ctxs : List Context) (s : Sys C V) (hinv : Inv K db query ctxs s)
    (hpos : 0 < s.callers.length)
    (hall : ∀ (j : Nat) (t : Caller V), s.callers[j]? = some t → t.pc.isDone = true) :
    ∃ ctx ∈ ctxs, ∃ h, K.answer db ctx query = .ok h ∧
      s.mem.DB = db ++ [K.call ctx query] ∧
      results s.callers = List.replicate s.callers.length (.ok h) := by
  rcases inv_history K db query ctxs s hinv with ⟨_, hnd⟩ | ⟨ctx, hmem, h, hans, hdb, hres⟩
  · exfalso
    have h0 : s.callers[0]? = some (s.callers[0]) := List.getElem?_eq_getElem hpos
    have h1 := hnd 0 _ h0
    have h2 := hall 0 _ h0
    rw [h1] at h2
    cases h2
  · refine ⟨ctx, hmem, h, hans, hdb, results_replicate (.ok h) s.callers ?_⟩
    intro j t ht
    have hd := hall j t ht
    cases hpc : t.pc <;> simp [hpc, Pc.isDone] at hd
    rename_i r
    rw [hres j t r ht hpc]

/-- Callers that all resolve a text with no entry, whose compile succeeds: every
interleaving can be carried on until all callers have returned; and in a state where all
the callers, at least one, have returned, the history is the old one plus one compile call
and all callers have returned the handle of that compile. -/
theorem single_compile_done {C V : Type} (K : Compile C V) (db : List C) (stmts : GoMap V)
    (query : String) (ctxs : List Context) (hmiss : GoMap.lookup stmts query = none)
    (hok : ∀ ctx ∈ ctxs, ∃ h, K.answer db ctx query = .ok h) (sched : List Nat) :
    (∃ more, ∀ (j : Nat) (t : Caller V),
      (exec K (start db stmts query ctxs) (sched ++ more)).callers[j]? = some t →
      t.pc.isDone = true) ∧
    (ctxs ≠ [] →
      (∀ (j : Nat) (t : Caller V),
        (exec K (start db stmts query ctxs) sched).callers[j]? = some t →
        t.pc.isDone = true) →
      ∃ ctx ∈ ctxs, ∃ h, K.answer db ctx query = .ok h ∧
        (exec K (start db stmts query ctxs) sched).mem.DB = db ++ [K.call ctx query] ∧
        results (exec K (start db stmts query ctxs) sched).callers
          = List.replicate ctxs.length (.ok h)) := by
  have hinv := inv_exec K db query ctxs hok sched _ (inv_start K db stmts query ctxs hmiss)
  have hlen : (exec K (start db stmts query ctxs) sched).callers.length = ctxs.length := by
    rw [exec_length]
    simp [start]
  constructor
  · obtain ⟨more, hmore⟩ := completes K db query ctxs hok _ _ hinv (Nat.le_refl _)
    exact ⟨more, by rw [exec_append]; exact hmore⟩
  · intro hne hall
    have hpos : 0 < (exec K (start db stmts query ctxs) sched).callers.length := by
      rw [hlen]
      exact List.length_pos.mpr hne
    obtain ⟨ctx, hmem, h, hans, hdb, hres⟩ := all_done K db query ctxs _ hinv hpos hall
    exact ⟨ctx, hmem, h, hans, hdb, by rw [hres, hlen]⟩

end Steps

/-! ## The step machine agrees with the sequential `stmt` -/

/-- A single caller, run to the end, does what `Cache.stmt` does. -/
theorem cache_stmt_solo (B : sql.Backend) (c : Cache) (ctx : Context) (q : String) :
    ∃ c1 r, Cache.stmt B c ctx q = some (c1, r) ∧
      Cache.concurrentStmt B c.DB c.stmts q [ctx] (List.replicate 11 0)
        = { mem := { DB := c1.DB, stmts := c1.stmts, readers := 0, writer := false },
            callers := [{ ctx := ctx, query := q, pc := .done r }] } := by
  rw [cache_stmt_eq]
  obtain ⟨db, m⟩ := c
  cases hl : GoMap.lookup m q with
  | some h =>
    refine ⟨_, _, rfl, ?_⟩
    simp [Cache.concurrentStmt, Steps.exec, Steps.step, Steps.next, Steps.start,
      List.replicate, hl]
  | none =>
    cases hp : B.PrepareContext db ctx q with
    | error e =>
      refine ⟨_, _, rfl, ?_⟩
      simp [Cache.concurrentStmt, Steps.exec, Steps.step, Steps.next, Steps.start,
        List.replicate, hl, hp, Cache.compile]
    | ok h =>
      refine ⟨_, _, rfl, ?_⟩
      cases m with
      | none =>
        simp [Cache.concurrentStmt, Steps.exec, Steps.step, Steps.next, Steps.start,
          List.replicate, hl, hp, Cache.compile, GoMap.assign, GoMap.lookup, GoMap.find]
      | some es =>
        simp [Cache.concurrentStmt, Steps.exec, Steps.step, Steps.next, Steps.start,
          List.replicate, hl, hp, Cache.compile, GoMap.assign]

/-- A single caller, run to the end, does what `Cachex.stmt` does. -/
theorem cachex_stmt_solo (B : sqlx.Backend) (c : Cachex) (ctx : Context) (q : String) :
    ∃ c1 r, Cachex.stmt B c ctx q = some (c1, r) ∧
      Cachex.concurrentStmt B c.DB c.stmts q [ctx] (List.replicate 11 0)
        = { mem := { DB := c1.DB, stmts := c1.stmts, readers := 0, writer := false },
            callers := [{ ctx := ctx, query := q, pc := .done r }] } := by
  rw [cachex_stmt_eq]
  obtain ⟨db, m⟩ := c
  cases hl : GoMap.lookup m q with
  | some h =>
    refine ⟨_, _, rfl, ?_⟩
    simp [Cachex.concurrentStmt, Steps.exec, Steps.step, Steps.next, Steps.start,
      List.replicate, hl]
  | none =>
    cases hp : B.PreparexContext db ctx q with
    | error e =>
      refine ⟨_, _, rfl, ?_⟩
      simp [Cachex.concurrentStmt, Steps.exec, Steps.step, Steps.next, Steps.start,
        List.replicate, hl, hp, Cachex.compile]
    | ok h =>
      refine ⟨_, _, rfl, ?_⟩
      cases m with
      | none =>
        simp [Cachex.concurrentStmt, Steps.exec, Steps.step, Steps.next, Steps.start,
          List.replicate, hl, hp, Cachex.compile, GoMap.assign, GoMap.lookup, GoMap.find]
      | some es =>
        simp [Cachex.concurrentStmt, Steps.exec, Steps.step, Steps.next, Steps.start,
          List.replicate, hl, hp, Cachex.compile, GoMap.assign]

/-! ## Single compilation under concurrency -/

/-- C4, as amended: callers, one per context in `ctxs`, that at the same time resolve a
text `q` which has no entry and whose compile, asked of the backend as it stands (history
`db`), succeeds under the context of every one of the callers (`hok`: the compile is
handed the caller's own context, so the condition is on each caller's context and not on
the text alone).  In the state `s` that any interleaving `sched` of their statements
(read-lock check, write-lock re-check, compile,
insert, unlock) leads to: no caller has faulted; compile has been invoked for `q` at most
once; either nobody has returned yet and nothing was compiled, or the history is the old
one plus the single compile call and every caller that has returned has returned, with no
error, the handle that this one compile produced; when all the callers, at least one, have
returned, compile has been invoked for `q` exactly once and all of them have returned that
same handle; the interleaving can be carried on until all callers have returned; while
some caller has not returned some caller can move; and every move uses up fuel, of which
there is `11` per caller.  Both `Cache.stmt` (`s`) and `Cachex.stmt` (`sx`). -/
theorem concurrent_single_compilation (B : sql.Backend) (Bx : sqlx.Backend) (q : String)
    (ctxs : List Context) (sched : List Nat)
    (db : sql.DB) (stmts : GoMap sql.Stmt) (hmiss : GoMap.lookup stmts q = none)
    (hok : ∀ ctx ∈ ctxs, ∃ h, B.PrepareContext db ctx q = .ok h)
    (s : Steps.Sys sql.Call sql.Stmt) (hs : s = Cache.concurrentStmt B db stmts q ctxs sched)
    (dbx : sqlx.DB) (stmtsx : GoMap sqlx.Stmt) (hmissx : GoMap.lookup stmtsx q = none)
    (hokx : ∀ ctx ∈ ctxs, ∃ h, Bx.PreparexContext dbx ctx q = .ok h)
    (sx : Steps.Sys sqlx.Call sqlx.Stmt)
    (hsx : sx = Cachex.concurrentStmt Bx dbx stmtsx q ctxs sched) :
    (s.callers.length = ctxs.length ∧
      (∀ (j : Nat) (t : Steps.Caller sql.Stmt), s.callers[j]? = some t → t.pc ≠ .fault) ∧
      sql.prepares s.mem.DB q ≤ sql.prepares db q + 1 ∧
      ((s.mem.DB = db ∧
          ∀ (j : Nat) (t : Steps.Caller sql.Stmt), s.callers[j]? = some t →
            t.pc.isDone = false) ∨
        ∃ ctx ∈ ctxs, ∃ h, B.PrepareContext db ctx q = .ok h ∧
          s.mem.DB = db ++ [sql.Call.PrepareContext ctx q] ∧
          ∀ (j : Nat) (t : Steps.Caller sql.Stmt) (r : Except Error sql.Stmt),
            s.callers[j]? = some t → t.pc = .done r → r = .ok h) ∧
      (ctxs ≠ [] →
        (∀ (j : Nat) (t : Steps.Caller sql.Stmt), s.callers[j]? = some t →
          t.pc.isDone = true) →
        ∃ ctx ∈ ctxs, ∃ h, B.PrepareContext db ctx q = .ok h ∧
          s.mem.DB = db ++ [sql.Call.PrepareContext ctx q] ∧
          sql.prepares s.mem.DB q = sql.prepares db q + 1 ∧
          Steps.results s.callers = List.replicate ctxs.length (.ok h)) ∧
      (∃ more, ∀ (j : Nat) (t : Steps.Caller sql.Stmt),
        (Cache.concurrentStmt B db stmts q ctxs (sched ++ more)).callers[j]? = some t →
        t.pc.isDone = true) ∧
      ((∃ (j : Nat) (t : Steps.Caller sql.Stmt),
          s.callers[j]? = some t ∧ t.pc.isDone = false) →
        ∃ i, (Steps.step (Cache.compile B) s i).isSome = true) ∧
      (∀ (i : Nat) (s1 : Steps.Sys sql.Call sql.Stmt),
        Steps.step (Cache.compile B) s i = some s1 →
        Steps.fuel s1.callers < Steps.fuel s.callers) ∧
      Steps.fuel s.callers ≤ 11 * ctxs.length) ∧
    (sx.callers.length = ctxs.length ∧
      (∀ (j : Nat) (t : Steps.Caller sqlx.Stmt), sx.callers[j]? = some t → t.pc ≠ .fault) ∧
      sqlx.prepares sx.mem.DB q ≤ sqlx.prepares dbx q + 1 ∧
      ((sx.mem.DB = dbx ∧
          ∀ (j : Nat) (t : Steps.Caller sqlx.Stmt), sx.callers[j]? = some t →
            t.pc.isDone = false) ∨
        ∃ ctx ∈ ctxs, ∃ h, Bx.PreparexContext dbx ctx q = .ok h ∧
          sx.mem.DB = dbx ++ [sqlx.Call.PreparexContext ctx q] ∧
          ∀ (j : Nat) (t : Steps.Caller sqlx.Stmt) (r : Except Error sqlx.Stmt),
            sx.callers[j]? = some t → t.pc = .done r → r = .ok h) ∧
      (ctxs ≠ [] →
        (∀ (j : Nat) (t : Steps.Caller sqlx.Stmt), sx.callers[j]? = some t →
          t.pc.isDone = true) →
        ∃ ctx ∈ ctxs, ∃ h, Bx.PreparexContext dbx ctx q = .ok h ∧
          sx.mem.DB = dbx ++ [sqlx.Call.PreparexContext ctx q] ∧
          sqlx.prepares sx.mem.DB q = sqlx.prepares dbx q + 1 ∧
          Steps.results sx.callers = List.replicate ctxs.length (.ok h)) ∧
      (∃ more, ∀ (j : Nat) (t : Steps.Caller sqlx.Stmt),
        (Cachex.concurrentStmt Bx dbx stmtsx q ctxs (sched ++ more)).callers[j]? = some t →
        t.pc.isDone = true) ∧
      ((∃ (j : Nat) (t : Steps.Caller sqlx.Stmt),
          sx.callers[j]? = some t ∧ t.pc.isDone = false) →
        ∃ i, (Steps.step (Cachex.compile Bx) sx i).isSome = true) ∧
      (∀ (i : Nat) (s1 : Steps.Sys sqlx.Call sqlx.Stmt),
        Steps.step (Cachex.compile Bx) sx i = some s1 →
        Steps.fuel s1.callers < Steps.fuel sx.callers) ∧
      Steps.fuel sx.callers ≤ 11 * ctxs.length) := by
  constructor
  · obtain ⟨h1, h2, h3, h4, h5, h6⟩ := Steps.single_compile (Cache.compile B) db stmts q
      ctxs hmiss hok sched s hs
    obtain ⟨g1, g2⟩ := Steps.single_compile_done (Cache.compile B) db stmts q ctxs hmiss hok
      sched
    refine ⟨h1, h2, ?_, h3, ?_, g1, h4, h5, h6⟩
    · rcases h3 with ⟨hdb, _⟩ | ⟨ctx, _, h, _, hdb, _⟩
      · rw [hdb]
        omega
      · rw [hdb]
        simp [sql_prepares_append, sql_prepares_cons, sql_prepares_nil, sql.Call.isPrepare,
          Cache.compile]
    · intro hne hall
      subst hs
      obtain ⟨ctx, hmem, h, hans, hdb, hres⟩ := g2 hne hall
      refine ⟨ctx, hmem, h, hans, hdb, ?_, hres⟩
      have e : (Cache.concurrentStmt B db stmts q ctxs sched).mem.DB
          = db ++ [sql.Call.PrepareContext ctx q] := hdb
      rw [e]
      simp [sql_prepares_append, sql_prepares_cons, sql_prepares_nil, sql.Call.isPrepare]
  · obtain ⟨h1, h2, h3, h4, h5, h6⟩ := Steps.single_compile (Cachex.compile Bx) dbx stmtsx q
      ctxs hmissx hokx sched sx hsx
    obtain ⟨g1, g2⟩ := Steps.single_compile_done (Cachex.compile Bx) dbx stmtsx q ctxs hmissx
      hokx sched
    refine ⟨h1, h2, ?_, h3, ?_, g1, h4, h5, h6⟩
    · rcases h3 with ⟨hdb, _⟩ | ⟨ctx, _, h, _, hdb, _⟩
      · rw [hdb]
        omega
      · rw [hdb]
        simp [sqlx_prepares_append, sqlx_prepares_cons, sqlx_prepares_nil,
          sqlx.Call.isPrepare, Cachex.compile]
    · intro hne hall
      subst hsx
      obtain ⟨ctx, hmem, h, hans, hdb, hres⟩ := g2 hne hall
      refine ⟨ctx, hmem, h, hans, hdb, ?_, hres⟩
      have e : (Cachex.concurrentStmt Bx dbx stmtsx q ctxs sched).mem.DB
          = dbx ++ [sqlx.Call.PreparexContext ctx q] := hdb
      rw [e]
      simp [sqlx_prepares_append, sqlx_prepares_cons, sqlx_prepares_nil,
        sqlx.Call.isPrepare]

/-- Two callers of the text `SELECT 1` on a fresh cache over the example backend, taking
turns statement by statement: both miss under the read lock, one compiles, the other finds
the handle at the re-check. -/
theorem concurrent_single_compilation_witness :
    sql.prepares (Cache.concurrentStmt sql.Backend.sample [] none "SELECT 1"
        [Context.background, Context.derived 1]
        [0, 1, 0, 1, 0, 1, 0, 1, 0, 1, 0, 1, 0, 1, 0, 1, 0, 1, 0, 1, 0, 1, 1, 1, 1, 1, 1]).mem.DB
      "SELECT 1" ≤ sql.prepares [] "SELECT 1" + 1 ∧
    sql.prepares (Cache.concurrentStmt sql.Backend.sample [] none "SELECT 1"
        [Context.background, Context.derived 1]
        [0, 1, 0, 1, 0, 1, 0, 1, 0, 1, 0, 1, 0, 1, 0, 1, 0, 1, 0, 1, 0, 1, 1, 1, 1, 1, 1]).mem.DB
      "SELECT 1" = 1 ∧
    Steps.results (Cache.concurrentStmt sql.Backend.sample [] none "SELECT 1"
        [Context.background, Context.derived 1]
        [0, 1, 0, 1, 0, 1, 0, 1, 0, 1, 0, 1, 0, 1, 0, 1, 0, 1, 0, 1, 0, 1, 1, 1, 1, 1, 1]).callers
      = [.ok ⟨0⟩, .ok ⟨0⟩] :=
  ⟨(concurrent_single_compilation sql.Backend.sample sqlx.Backend.sample "SELECT 1"
      [Context.background, Context.derived 1]
      [0, 1, 0, 1, 0, 1, 0, 1, 0, 1, 0, 1, 0, 1, 0, 1, 0, 1, 0, 1, 0, 1, 1, 1, 1, 1, 1]
      [] none (by rfl) (fun _ _ => ⟨⟨0⟩, by rfl⟩) _ rfl
      [] none (by rfl) (fun _ _ => ⟨⟨0⟩, by rfl⟩) _ rfl).1.2.2.1,
    by rfl, by rfl⟩

/-- C4, as stated, fails for a text that does not compile: two callers request
`SELEKT 1` at the same time on a fresh cache, the first runs to its return and then the
second; both have returned, each with the compile error and no handle, and compile has
been invoked for the text twice, not once. -/
theorem concurrent_failed_compile_twice :
    Steps.results (Cache.concurrentStmt sql.Backend.sample [] none "SELEKT 1"
        [Context.background, Context.derived 1]
        (List.replicate 11 0 ++ List.replicate 11 1)).callers
      = [.error ⟨"syntax error"⟩, .error ⟨"syntax error"⟩] ∧
    sql.prepares (Cache.concurrentStmt sql.Backend.sample [] none "SELEKT 1"
        [Context.background, Context.derived 1]
        (List.replicate 11 0 ++ List.replicate 11 1)).mem.DB "SELEKT 1" = 2 ∧
    sql.prepares [] "SELEKT 1" = 0 ∧
    GoMap.lookup (none : GoMap sql.Stmt) "SELEKT 1" = none := by
  refine ⟨by rfl, by rfl, by rfl, by rfl⟩

/-- Single compilation needs the compile to succeed under every caller's context, not
only for the text: the text `SELECT 1` compiles under the background context, but of two callers that request
it at the same time the one whose context is cancelled runs first, its compile fails and
nothing is stored, so the second caller compiles again; compile has been invoked twice and
only the second caller has a handle. -/
theorem concurrent_cancelled_caller_compiles_again :
    sql.Backend.cancelled.PrepareContext [] Context.background "SELECT 1" = .ok ⟨0⟩ ∧
    Steps.results (Cache.concurrentStmt sql.Backend.cancelled [] none "SELECT 1"
        [Context.derived 9, Context.background]
        (List.replicate 11 0 ++ List.replicate 11 1)).callers
      = [.error ⟨"context canceled"⟩, .ok ⟨1⟩] ∧
    sql.prepares (Cache.concurrentStmt sql.Backend.cancelled [] none "SELECT 1"
        [Context.derived 9, Context.background]
        (List.replicate 11 0 ++ List.replicate 11 1)).mem.DB "SELECT 1" = 2 := by
  refine ⟨by rfl, by rfl, by rfl⟩

end pstmt
